import Mathlib

/-!
# Verification of the PersonalDashboard aggregation and reporting core

A shallow embedding of the repository's models, repositories and services
(`src/models`, `src/repositories`, `src/services`), together with proofs of
the testable properties stated in the specification.

Modelling conventions:
* SQLite `TEXT` values that participate in ordering or `LIKE` matching
  (ISO dates `YYYY-MM-DD`, times `HH:MM`) are modelled as lists of
  code points (`List Nat`); `TEXT` values only compared for equality
  (enum tags, notes, clients, titles) are modelled as `String`.
* Each SQLite table is a list of rows plus the `AUTOINCREMENT` counter.
* Python exceptions raised while converting rows back to dataclasses
  (`_row_to_expense` and friends) are modelled with `Option`; a repository
  read that would raise returns `none`.
* Python's stable `sorted` and SQLite's `ORDER BY` are modelled by a stable
  insertion sort parameterised by a boolean "less or equal" on sort keys.
-/

/-! ## Stable insertion sort (models Python `sorted` and SQL `ORDER BY`) -/

/-- Insert `a` into `l` immediately before the first element `b` with
`le a b = true`.  For a total preorder `le` this is the stable insertion
step: an element inserted from the front ends up before every element it
compares less-or-equal to. -/
def insertBy (le : α → α → Bool) (a : α) : List α → List α
  | [] => [a]
  | b :: l => if le a b then a :: b :: l else b :: insertBy le a l

/-- Stable sort by the boolean relation `le`. -/
def sortBy (le : α → α → Bool) : List α → List α
  | [] => []
  | a :: l => insertBy le a (sortBy le l)

theorem perm_insertBy (le : α → α → Bool) (a : α) :
    ∀ l : List α, List.Perm (insertBy le a l) (a :: l)
  | [] => List.Perm.refl _
  | b :: l => by
      simp only [insertBy]
      split
      · exact List.Perm.refl _
      · exact ((perm_insertBy le a l).cons b).trans (List.Perm.swap a b l)

theorem perm_sortBy (le : α → α → Bool) : ∀ l : List α, List.Perm (sortBy le l) l
  | [] => List.Perm.refl _
  | a :: l => by
      simpa [sortBy] using (perm_insertBy le a (sortBy le l)).trans
        ((perm_sortBy le l).cons a)

theorem mem_sortBy {le : α → α → Bool} {l : List α} {x : α}
    (h : x ∈ sortBy le l) : x ∈ l :=
  (perm_sortBy le l).mem_iff.mp h

theorem pairwise_insertBy {le : α → α → Bool}
    (htot : ∀ a b, le a b || le b a)
    (htrans : ∀ a b c, le a b = true → le b c = true → le a c = true)
    {l : List α} (a : α)
    (hl : l.Pairwise (fun x y => le x y = true)) :
    (insertBy le a l).Pairwise (fun x y => le x y = true) := by
  induction l with
  | nil => simp [insertBy]
  | cons b l ih =>
      rcases hl with _ | ⟨hb, hl⟩
      simp only [insertBy]
      split
      · rename_i hab
        refine List.Pairwise.cons ?_ (List.Pairwise.cons hb hl)
        intro x hx
        rcases List.mem_cons.mp hx with rfl | hx
        · exact hab
        · exact htrans a b x hab (hb x hx)
      · rename_i hab
        have hba : le b a = true := by
          have := htot a b
          simp [hab] at this
          exact this
        refine List.Pairwise.cons ?_ (ih hl)
        intro x hx
        rcases List.mem_cons.mp ((perm_insertBy le a l).mem_iff.mp hx) with rfl | hx
        · exact hba
        · exact hb x hx

theorem pairwise_sortBy {le : α → α → Bool}
    (htot : ∀ a b, le a b || le b a)
    (htrans : ∀ a b c, le a b = true → le b c = true → le a c = true) :
    ∀ l : List α, (sortBy le l).Pairwise (fun x y => le x y = true)
  | [] => List.Pairwise.nil
  | a :: l => pairwise_insertBy htot htrans a (pairwise_sortBy htot htrans l)

theorem filter_insertBy_neg {le : α → α → Bool} {p : α → Bool} {a : α}
    (ha : p a = false) :
    ∀ l : List α, (insertBy le a l).filter p = l.filter p
  | [] => by simp [insertBy, ha]
  | b :: l => by
      simp only [insertBy]
      split
      · simp [List.filter, ha]
      · simp [List.filter, filter_insertBy_neg ha l]

theorem filter_insertBy_pos {le : α → α → Bool} {p : α → Bool} {a : α}
    (ha : p a = true) (hle : ∀ b, p b = true → le a b = true) :
    ∀ l : List α, (insertBy le a l).filter p = a :: l.filter p
  | [] => by simp [insertBy, ha]
  | b :: l => by
      simp only [insertBy]
      split
      · simp [List.filter, ha]
      · rename_i hab
        have hb : p b = false := by
          cases hpb : p b
          · rfl
          · exact absurd (hle b hpb) (by simp [hab])
        simp [List.filter, hb, filter_insertBy_pos ha hle l]

/-- Stability of `sortBy`: the elements of an equivalence class of the sort
key (any `p` on which `le` is constantly true both ways) appear in the
output in their original input order. -/
theorem filter_sortBy {le : α → α → Bool} {p : α → Bool}
    (hp : ∀ x y, p x = true → p y = true → le x y = true) :
    ∀ l : List α, (sortBy le l).filter p = l.filter p
  | [] => rfl
  | a :: l => by
      cases ha : p a
      · simp [sortBy, List.filter, ha, filter_insertBy_neg ha,
          filter_sortBy hp l]
      · simp [sortBy, List.filter, ha,
          filter_insertBy_pos ha (fun b hb => hp a b ha hb),
          filter_sortBy hp l]

theorem sum_map_sortBy (le : α → α → Bool) (f : α → Int) (l : List α) :
    ((sortBy le l).map f).sum = (l.map f).sum :=
  ((perm_sortBy le l).map f).sum_eq

/-! ## Code-point strings: lexicographic order, digits, padding

SQLite compares `TEXT` with the `BINARY` collation, i.e. bytewise; on the
ASCII-only strings the repositories store this is code-point-wise
lexicographic comparison. -/

/-- Bytewise (code-point-wise) lexicographic `≤` on stored text. -/
def lexLe : List Nat → List Nat → Bool
  | [], _ => true
  | _ :: _, [] => false
  | a :: as, b :: bs => if a < b then true else if b < a then false else lexLe as bs

theorem lexLe_total : ∀ a b : List Nat, lexLe a b || lexLe b a
  | [], _ => by simp [lexLe]
  | _ :: _, [] => by simp [lexLe]
  | a :: as, b :: bs => by
      simp only [lexLe]
      split_ifs with h1 h2 <;> simp [lexLe_total as bs]

theorem lexLe_trans : ∀ a b c : List Nat,
    lexLe a b = true → lexLe b c = true → lexLe a c = true
  | [], _, _, _, _ => by simp [lexLe]
  | _ :: _, [], _, h, _ => by simp [lexLe] at h
  | _ :: _, _ :: _, [], _, h => by simp [lexLe] at h
  | a :: as, b :: bs, c :: cs, h1, h2 => by
      simp only [lexLe] at h1 h2 ⊢
      split_ifs at h1 h2 ⊢ <;> try omega
      all_goals first
        | rfl
        | exact lexLe_trans as bs cs h1 h2

theorem lexLe_antisymm : ∀ a b : List Nat,
    lexLe a b = true → lexLe b a = true → a = b
  | [], [], _, _ => rfl
  | [], _ :: _, _, h => by simp [lexLe] at h
  | _ :: _, [], h, _ => by simp [lexLe] at h
  | a :: as, b :: bs, h1, h2 => by
      simp only [lexLe] at h1 h2
      split_ifs at h1 h2 <;> try omega
      have : a = b := by omega
      subst this
      rw [lexLe_antisymm as bs h1 h2]

/-- `pat` is an initial segment of `s`.  This is how the repositories use
SQL `LIKE`: every pattern is a literal prefix followed by `%`, and the
stored strings contain no letters, so `LIKE`'s ASCII case folding and
wildcard characters play no role. -/
def likeMatch : List Nat → List Nat → Bool
  | [], _ => true
  | _ :: _, [] => false
  | p :: ps, s :: ss => p == s && likeMatch ps ss

/-- The code points of the two-digit zero-padded decimal form of `n`
(`n ≤ 99`), as produced by Python `f"{n:02d}"` and `strftime`. -/
def pad2 (n : Nat) : List Nat := [48 + n / 10, 48 + n % 10]

/-- The code points of the four-digit zero-padded decimal form of `n`
(`n ≤ 9999`), as produced by Python `f"{n:04d}"` and `date.isoformat`. -/
def pad4 (n : Nat) : List Nat :=
  [48 + n / 1000, 48 + n / 100 % 10, 48 + n / 10 % 10, 48 + n % 10]

def isDigit (c : Nat) : Bool := 48 ≤ c && c ≤ 57

/-- Python `int(...)` applied to a nonempty all-digit string. -/
def digitsToNat? (l : List Nat) : Option Nat :=
  if l ≠ [] ∧ l.all isDigit then
    some (l.foldl (fun a c => a * 10 + (c - 48)) 0)
  else none

theorem digitsToNat?_pad2 {n : Nat} (h : n ≤ 99) :
    digitsToNat? (pad2 n) = some n := by
  have h1 : n / 10 ≤ 9 := by omega
  have h2 : n % 10 ≤ 9 := by omega
  simp [digitsToNat?, pad2, isDigit, List.all]
  constructor
  · omega
  · omega

/-! ## Dates (Python `datetime.date`) -/

/-- A calendar date as held by Python `datetime.date`. -/
structure PDate where
  year : Nat
  month : Nat
  day : Nat
deriving DecidableEq

def isLeap (y : Nat) : Bool := y % 4 = 0 && (y % 100 ≠ 0 || y % 400 = 0)

def daysInMonth (y m : Nat) : Nat :=
  if m = 2 then (if isLeap y then 29 else 28)
  else if m = 4 ∨ m = 6 ∨ m = 9 ∨ m = 11 then 30
  else 31

/-- The invariant `datetime.date` enforces at construction. -/
def PDate.validDate (d : PDate) : Prop :=
  1 ≤ d.year ∧ d.year ≤ 9999 ∧ 1 ≤ d.month ∧ d.month ≤ 12 ∧
    1 ≤ d.day ∧ d.day ≤ daysInMonth d.year d.month

instance (d : PDate) : Decidable d.validDate := by
  unfold PDate.validDate; infer_instance

/-- Python `date.isoformat()`: the code points of `YYYY-MM-DD`. -/
def isoDate (d : PDate) : List Nat :=
  pad4 d.year ++ 45 :: (pad2 d.month ++ 45 :: pad2 d.day)

/-- Python `date.fromisoformat` on a `YYYY-MM-DD` string, including the
range validation `date.__new__` performs. -/
def fromIso? (s : List Nat) : Option PDate :=
  match s with
  | [y1, y2, y3, y4, c1, m1, m2, c2, d1, d2] =>
      if c1 = 45 ∧ c2 = 45 ∧ isDigit y1 ∧ isDigit y2 ∧ isDigit y3 ∧ isDigit y4 ∧
          isDigit m1 ∧ isDigit m2 ∧ isDigit d1 ∧ isDigit d2 then
        let y := (y1 - 48) * 1000 + (y2 - 48) * 100 + (y3 - 48) * 10 + (y4 - 48)
        let mo := (m1 - 48) * 10 + (m2 - 48)
        let dd := (d1 - 48) * 10 + (d2 - 48)
        if 1 ≤ y ∧ 1 ≤ mo ∧ mo ≤ 12 ∧ 1 ≤ dd ∧ dd ≤ daysInMonth y mo then
          some ⟨y, mo, dd⟩
        else none
      else none
  | _ => none

/-- Python's ordering on `date`: lexicographic on (year, month, day). -/
def PDate.leB (a b : PDate) : Bool :=
  if a.year = b.year then
    if a.month = b.month then decide (a.day ≤ b.day)
    else decide (a.month < b.month)
  else decide (a.year < b.year)

theorem fromIso?_isoDate {d : PDate} (h : d.validDate) :
    fromIso? (isoDate d) = some d := by
  obtain ⟨h1, h2, h3, h4, h5, h6⟩ := h
  have hdm : daysInMonth d.year d.month ≤ 31 := by
    unfold daysInMonth; split_ifs <;> omega
  have e1 : (48 + d.year / 1000 - 48) * 1000 + (48 + d.year / 100 % 10 - 48) * 100
      + (48 + d.year / 10 % 10 - 48) * 10 + (48 + d.year % 10 - 48) = d.year := by omega
  have e2 : (48 + d.month / 10 - 48) * 10 + (48 + d.month % 10 - 48) = d.month := by omega
  have e3 : (48 + d.day / 10 - 48) * 10 + (48 + d.day % 10 - 48) = d.day := by omega
  have hiso : isoDate d = [48 + d.year / 1000, 48 + d.year / 100 % 10,
      48 + d.year / 10 % 10, 48 + d.year % 10, 45, 48 + d.month / 10,
      48 + d.month % 10, 45, 48 + d.day / 10, 48 + d.day % 10] := by
    simp [isoDate, pad4, pad2]
  rw [hiso]
  simp only [fromIso?]
  split_ifs with hc1 hc2
  · rw [e1, e2, e3]
  · exfalso
    rw [e1, e2, e3] at hc2
    exact hc2 ⟨h1, h3, h4, h5, h6⟩
  · exfalso
    apply hc1
    simp [isDigit]
    omega

/-- Generic helper: a boolean equals `decide P` as soon as it is true
exactly when `P` holds. -/
theorem bool_eq_decide {b : Bool} {P : Prop} [Decidable P]
    (h : b = true ↔ P) : b = decide P := by
  cases b
  · simp only [false_eq_decide_iff]
    intro hp
    exact (by simpa using h.mpr hp)
  · simp only [true_eq_decide_iff]
    exact h.mp rfl

theorem lexLe_cons_same (c : Nat) (r1 r2 : List Nat) :
    lexLe (c :: r1) (c :: r2) = lexLe r1 r2 := by
  simp [lexLe]

theorem lexLe_pad4_append_eq (y : Nat) (r1 r2 : List Nat) :
    lexLe (pad4 y ++ r1) (pad4 y ++ r2) = lexLe r1 r2 := by
  simp only [pad4, List.cons_append, List.nil_append, lexLe]
  split_ifs <;> first | rfl | (exfalso; omega)

theorem lexLe_pad4_append_lt {y1 y2 : Nat} (hlt : y1 < y2) (r1 r2 : List Nat) :
    lexLe (pad4 y1 ++ r1) (pad4 y2 ++ r2) = true := by
  simp only [pad4, List.cons_append, List.nil_append, lexLe]
  split_ifs <;> first | rfl | (exfalso; omega)

theorem lexLe_pad4_append_gt {y1 y2 : Nat} (hlt : y2 < y1) (r1 r2 : List Nat) :
    lexLe (pad4 y1 ++ r1) (pad4 y2 ++ r2) = false := by
  simp only [pad4, List.cons_append, List.nil_append, lexLe]
  split_ifs <;> first | rfl | (exfalso; omega)

theorem lexLe_pad2_append_eq (m : Nat) (r1 r2 : List Nat) :
    lexLe (pad2 m ++ r1) (pad2 m ++ r2) = lexLe r1 r2 := by
  simp only [pad2, List.cons_append, List.nil_append, lexLe]
  split_ifs <;> first | rfl | (exfalso; omega)

theorem lexLe_pad2_append_lt {m1 m2 : Nat} (hlt : m1 < m2) (r1 r2 : List Nat) :
    lexLe (pad2 m1 ++ r1) (pad2 m2 ++ r2) = true := by
  simp only [pad2, List.cons_append, List.nil_append, lexLe]
  split_ifs <;> first | rfl | (exfalso; omega)

theorem lexLe_pad2_append_gt {m1 m2 : Nat} (hlt : m2 < m1) (r1 r2 : List Nat) :
    lexLe (pad2 m1 ++ r1) (pad2 m2 ++ r2) = false := by
  simp only [pad2, List.cons_append, List.nil_append, lexLe]
  split_ifs <;> first | rfl | (exfalso; omega)

theorem lexLe_pad2 (d1 d2 : Nat) :
    lexLe (pad2 d1) (pad2 d2) = decide (d1 ≤ d2) := by
  apply bool_eq_decide
  simp only [pad2, lexLe]
  split_ifs <;> simp <;> omega

/-- Bytewise comparison of `YYYY-MM-DD` strings agrees with Python's
structural ordering of valid dates. -/
theorem lexLe_isoDate {a b : PDate} (ha : a.validDate) (hb : b.validDate) :
    lexLe (isoDate a) (isoDate b) = PDate.leB a b := by
  obtain ⟨_, ha2, _, ha4, _, ha6⟩ := ha
  obtain ⟨_, hb2, _, hb4, _, hb6⟩ := hb
  have ham : a.month ≤ 99 := by omega
  have hbm : b.month ≤ 99 := by omega
  have had : a.day ≤ 99 := by
    have : daysInMonth a.year a.month ≤ 31 := by
      unfold daysInMonth; split_ifs <;> omega
    omega
  have hbd : b.day ≤ 99 := by
    have : daysInMonth b.year b.month ≤ 31 := by
      unfold daysInMonth; split_ifs <;> omega
    omega
  unfold isoDate PDate.leB
  by_cases hy : a.year = b.year
  · rw [hy, lexLe_pad4_append_eq, lexLe_cons_same, if_pos rfl]
    by_cases hm : a.month = b.month
    · rw [hm, lexLe_pad2_append_eq, lexLe_cons_same, if_pos rfl,
        lexLe_pad2 a.day b.day]
    · rcases Nat.lt_or_ge a.month b.month with hlt | hge
      · rw [lexLe_pad2_append_lt hlt, if_neg hm]
        simp [hlt]
      · have hgt : b.month < a.month := by omega
        rw [lexLe_pad2_append_gt hgt, if_neg hm]
        simp; omega
  · rcases Nat.lt_or_ge a.year b.year with hlt | hge
    · rw [lexLe_pad4_append_lt hlt, if_neg hy]
      simp [hlt]
    · have hgt : b.year < a.year := by omega
      rw [lexLe_pad4_append_gt hgt, if_neg hy]
      simp; omega


/-- The `LIKE` pattern `f"{year:04d}-{month:02d}" + "%"` used by
`get_by_month` matches exactly the valid dates of that year and month. -/
theorem likeMatch_month {y m : Nat} {d : PDate} (hd : d.validDate) :
    likeMatch (pad4 y ++ 45 :: pad2 m) (isoDate d) =
      decide (d.year = y ∧ d.month = m) := by
  obtain ⟨_, hd2, _, hd4, _, _⟩ := hd
  apply bool_eq_decide
  simp [isoDate, pad4, pad2, likeMatch]
  omega

/-- The `LIKE` pattern `f"{year:04d}" + "%"` used by `get_by_year` matches
exactly the valid dates of that year. -/
theorem likeMatch_year {y : Nat} {d : PDate} (hd : d.validDate) :
    likeMatch (pad4 y) (isoDate d) = decide (d.year = y) := by
  obtain ⟨_, hd2, _, _, _, _⟩ := hd
  apply bool_eq_decide
  simp [isoDate, pad4, pad2, likeMatch]
  omega

/-! ## Times of day (Python `datetime.time`) -/

/-- A time of day as held by Python `datetime.time`. -/
structure PTime where
  hour : Nat
  minute : Nat
  second : Nat
  microsecond : Nat
deriving DecidableEq

/-- The invariant `datetime.time` enforces at construction. -/
def PTime.validTime (t : PTime) : Prop :=
  t.hour ≤ 23 ∧ t.minute ≤ 59 ∧ t.second ≤ 59 ∧ t.microsecond ≤ 999999

instance (t : PTime) : Decidable t.validTime := by
  unfold PTime.validTime; infer_instance

/-- Python's ordering on `time`: lexicographic on
(hour, minute, second, microsecond).  Strict version. -/
def PTime.ltB (a b : PTime) : Bool :=
  if a.hour = b.hour then
    if a.minute = b.minute then
      if a.second = b.second then decide (a.microsecond < b.microsecond)
      else decide (a.second < b.second)
    else decide (a.minute < b.minute)
  else decide (a.hour < b.hour)

/-- `t.strftime("%H:%M")` from `_format_time`: the code points of `HH:MM`.
Seconds and microseconds are dropped. -/
def timeStr (t : PTime) : List Nat := pad2 t.hour ++ 58 :: pad2 t.minute

/-- Python `str.split(sep)` for a one-code-point separator. -/
def splitOnCode (c : Nat) : List Nat → List (List Nat)
  | [] => [[]]
  | x :: xs =>
      match splitOnCode c xs with
      | [] => if x = c then [[], []] else [[x]]
      | h :: t => if x = c then [] :: h :: t else (x :: h) :: t

/-- `_parse_time` on a non-null stored value:
`parts = val.split(":"); time(int(parts[0]), int(parts[1]))`, returning
`none` where the Python code would raise (missing part, non-digit part,
or the `time` constructor's range check). -/
def parseTime? (s : List Nat) : Option PTime :=
  match splitOnCode 58 s with
  | p0 :: p1 :: _ =>
      match digitsToNat? p0, digitsToNat? p1 with
      | some h, some m =>
          if h ≤ 23 ∧ m ≤ 59 then some ⟨h, m, 0, 0⟩ else none
      | _, _ => none
  | _ => none

/-- What storing a time as `HH:MM` keeps: the minute-precision floor. -/
def PTime.floorMinute (t : PTime) : PTime := ⟨t.hour, t.minute, 0, 0⟩

theorem splitOnCode_timeStr {h m : Nat} (hh : h ≤ 99) (hm : m ≤ 99) :
    splitOnCode 58 (timeStr ⟨h, m, 0, 0⟩) = [pad2 h, pad2 m] := by
  have d1 : 48 + h / 10 ≠ 58 := by omega
  have d2 : 48 + h % 10 ≠ 58 := by omega
  have d3 : 48 + m / 10 ≠ 58 := by omega
  have d4 : 48 + m % 10 ≠ 58 := by omega
  simp [timeStr, pad2, splitOnCode, d1, d2, d3, d4]

theorem parseTime?_timeStr {t : PTime} (ht : t.validTime) :
    parseTime? (timeStr t) = some t.floorMinute := by
  obtain ⟨h1, h2, _, _⟩ := ht
  have hs : timeStr t = timeStr ⟨t.hour, t.minute, 0, 0⟩ := rfl
  rw [parseTime?, hs, splitOnCode_timeStr (by omega) (by omega)]
  simp only [digitsToNat?_pad2 (show t.hour ≤ 99 by omega),
    digitsToNat?_pad2 (show t.minute ≤ 99 by omega)]
  simp only [PTime.floorMinute]
  rw [if_pos ⟨h1, h2⟩]

/-- Parsing the stored `HH:MM` form returns the original time exactly when
the time had no second or microsecond component. -/
theorem parseTime?_timeStr_eq_self {t : PTime} (ht : t.validTime) :
    (parseTime? (timeStr t) = some t ↔ t.second = 0 ∧ t.microsecond = 0) := by
  rw [parseTime?_timeStr ht]
  cases t with
  | mk h m s u => simp [PTime.floorMinute, eq_comm]

theorem lexLe_timeStr (a b : PTime) :
    lexLe (timeStr a) (timeStr b) =
      (if a.hour = b.hour then decide (a.minute ≤ b.minute)
       else decide (a.hour < b.hour)) := by
  unfold timeStr
  by_cases hh : a.hour = b.hour
  · rw [hh, lexLe_pad2_append_eq, lexLe_cons_same, if_pos rfl,
      lexLe_pad2 a.minute b.minute]
  · rcases Nat.lt_or_ge a.hour b.hour with hlt | hge
    · rw [lexLe_pad2_append_lt hlt, if_neg hh]
      simp [hlt]
    · have hgt : b.hour < a.hour := by omega
      rw [lexLe_pad2_append_gt hgt, if_neg hh]
      simp; omega

/-- Lift a key comparison to nullable keys the way SQLite orders `NULL`s:
`NULL` sorts before every non-`NULL` value in ascending order. -/
def optKeyLe (le : κ → κ → Bool) : Option κ → Option κ → Bool
  | none, _ => true
  | some _, none => false
  | some a, some b => le a b

/-! ## Enumerations (`src/models`)

Each Python `enum.Enum` member carries its canonical lowercase string tag
(its `value`); `ofTag?` is the `Enum(...)` value lookup, `none` where
Python raises `ValueError`. -/

inductive ExpenseCategory
  | RENT | UTILITIES | SUBSCRIPTIONS | GROCERIES | TRANSPORTATION
  | INSURANCE | MEDICAL | DINING | ENTERTAINMENT | EDUCATION
  | OFFICE_SUPPLIES | COMMUNICATION | TAX_PAYMENT | PENSION | OTHER
deriving DecidableEq

def ExpenseCategory.tag : ExpenseCategory → String
  | .RENT => "rent"
  | .UTILITIES => "utilities"
  | .SUBSCRIPTIONS => "subscriptions"
  | .GROCERIES => "groceries"
  | .TRANSPORTATION => "transportation"
  | .INSURANCE => "insurance"
  | .MEDICAL => "medical"
  | .DINING => "dining"
  | .ENTERTAINMENT => "entertainment"
  | .EDUCATION => "education"
  | .OFFICE_SUPPLIES => "office_supplies"
  | .COMMUNICATION => "communication"
  | .TAX_PAYMENT => "tax_payment"
  | .PENSION => "pension"
  | .OTHER => "other"

def ExpenseCategory.ofTag? (s : String) : Option ExpenseCategory :=
  if s = "rent" then some .RENT
  else if s = "utilities" then some .UTILITIES
  else if s = "subscriptions" then some .SUBSCRIPTIONS
  else if s = "groceries" then some .GROCERIES
  else if s = "transportation" then some .TRANSPORTATION
  else if s = "insurance" then some .INSURANCE
  else if s = "medical" then some .MEDICAL
  else if s = "dining" then some .DINING
  else if s = "entertainment" then some .ENTERTAINMENT
  else if s = "education" then some .EDUCATION
  else if s = "office_supplies" then some .OFFICE_SUPPLIES
  else if s = "communication" then some .COMMUNICATION
  else if s = "tax_payment" then some .TAX_PAYMENT
  else if s = "pension" then some .PENSION
  else if s = "other" then some .OTHER
  else none

theorem expenseCategory_ofTag_tag (c : ExpenseCategory) :
    ExpenseCategory.ofTag? c.tag = some c := by
  cases c <;> rfl

/-- The label `TaxService` synthesises for a category:
`cat.name.replace("_", " ").title()` evaluated on each member of the
closed enumeration. -/
def ExpenseCategory.taxLabel : ExpenseCategory → String
  | .RENT => "Rent"
  | .UTILITIES => "Utilities"
  | .SUBSCRIPTIONS => "Subscriptions"
  | .GROCERIES => "Groceries"
  | .TRANSPORTATION => "Transportation"
  | .INSURANCE => "Insurance"
  | .MEDICAL => "Medical"
  | .DINING => "Dining"
  | .ENTERTAINMENT => "Entertainment"
  | .EDUCATION => "Education"
  | .OFFICE_SUPPLIES => "Office Supplies"
  | .COMMUNICATION => "Communication"
  | .TAX_PAYMENT => "Tax Payment"
  | .PENSION => "Pension"
  | .OTHER => "Other"

inductive PaymentMethod
  | CASH | BANK_TRANSFER | CREDIT_CARD | DEBIT_CARD | CONVENIENCE_STORE
  | DIRECT_DEBIT | OTHER
deriving DecidableEq

def PaymentMethod.tag : PaymentMethod → String
  | .CASH => "cash"
  | .BANK_TRANSFER => "bank_transfer"
  | .CREDIT_CARD => "credit_card"
  | .DEBIT_CARD => "debit_card"
  | .CONVENIENCE_STORE => "convenience_store"
  | .DIRECT_DEBIT => "direct_debit"
  | .OTHER => "other"

def PaymentMethod.ofTag? (s : String) : Option PaymentMethod :=
  if s = "cash" then some .CASH
  else if s = "bank_transfer" then some .BANK_TRANSFER
  else if s = "credit_card" then some .CREDIT_CARD
  else if s = "debit_card" then some .DEBIT_CARD
  else if s = "convenience_store" then some .CONVENIENCE_STORE
  else if s = "direct_debit" then some .DIRECT_DEBIT
  else if s = "other" then some .OTHER
  else none

theorem paymentMethod_ofTag_tag (p : PaymentMethod) :
    PaymentMethod.ofTag? p.tag = some p := by
  cases p <;> rfl

inductive RecurrenceType
  | NONE | MONTHLY | YEARLY
deriving DecidableEq

def RecurrenceType.tag : RecurrenceType → String
  | .NONE => "none"
  | .MONTHLY => "monthly"
  | .YEARLY => "yearly"

def RecurrenceType.ofTag? (s : String) : Option RecurrenceType :=
  if s = "none" then some .NONE
  else if s = "monthly" then some .MONTHLY
  else if s = "yearly" then some .YEARLY
  else none

theorem recurrenceType_ofTag_tag (r : RecurrenceType) :
    RecurrenceType.ofTag? r.tag = some r := by
  cases r <;> rfl

inductive JobType
  | CONTRACT | HOURLY | TASK_BASED | RETAINER | OTHER
deriving DecidableEq

def JobType.tag : JobType → String
  | .CONTRACT => "contract"
  | .HOURLY => "hourly"
  | .TASK_BASED => "task_based"
  | .RETAINER => "retainer"
  | .OTHER => "other"

def JobType.ofTag? (s : String) : Option JobType :=
  if s = "contract" then some .CONTRACT
  else if s = "hourly" then some .HOURLY
  else if s = "task_based" then some .TASK_BASED
  else if s = "retainer" then some .RETAINER
  else if s = "other" then some .OTHER
  else none

theorem jobType_ofTag_tag (j : JobType) :
    JobType.ofTag? j.tag = some j := by
  cases j <;> rfl

inductive EventCategory
  | WORK | FAMILY | BIRTHDAY | DEADLINE | APPOINTMENT | HOLIDAY | OTHER
deriving DecidableEq

def EventCategory.tag : EventCategory → String
  | .WORK => "work"
  | .FAMILY => "family"
  | .BIRTHDAY => "birthday"
  | .DEADLINE => "deadline"
  | .APPOINTMENT => "appointment"
  | .HOLIDAY => "holiday"
  | .OTHER => "other"

def EventCategory.ofTag? (s : String) : Option EventCategory :=
  if s = "work" then some .WORK
  else if s = "family" then some .FAMILY
  else if s = "birthday" then some .BIRTHDAY
  else if s = "deadline" then some .DEADLINE
  else if s = "appointment" then some .APPOINTMENT
  else if s = "holiday" then some .HOLIDAY
  else if s = "other" then some .OTHER
  else none

theorem eventCategory_ofTag_tag (c : EventCategory) :
    EventCategory.ofTag? c.tag = some c := by
  cases c <;> rfl

inductive EventRecurrence
  | NONE | WEEKLY | MONTHLY | YEARLY
deriving DecidableEq

def EventRecurrence.tag : EventRecurrence → String
  | .NONE => "none"
  | .WEEKLY => "weekly"
  | .MONTHLY => "monthly"
  | .YEARLY => "yearly"

def EventRecurrence.ofTag? (s : String) : Option EventRecurrence :=
  if s = "none" then some .NONE
  else if s = "weekly" then some .WEEKLY
  else if s = "monthly" then some .MONTHLY
  else if s = "yearly" then some .YEARLY
  else none

theorem eventRecurrence_ofTag_tag (r : EventRecurrence) :
    EventRecurrence.ofTag? r.tag = some r := by
  cases r <;> rfl

/-- Python `not s.strip()` (with no argument, `strip` removes ASCII and
unicode whitespace): a string is blank exactly when every character is
whitespace. -/
def isBlankStr (s : String) : Bool := s.data.all Char.isWhitespace

/-! ## Domain records (`src/models`) -/

/-- `Expense` dataclass (`src/models/expense.py`). -/
structure Expense where
  amount : Int
  category : ExpenseCategory
  expense_date : PDate
  payment_method : PaymentMethod
  recurrence : RecurrenceType
  notes : String
  id : Option Nat
deriving DecidableEq

/-- What `Expense.__post_init__` (amount) plus the `date` type itself
guarantee about a constructed record. -/
def Expense.wf (e : Expense) : Prop :=
  0 ≤ e.amount ∧ e.expense_date.validDate

/-- `Income` dataclass (`src/models/income.py`). -/
structure Income where
  amount : Int
  income_date : PDate
  client : String
  job_type : JobType
  notes : String
  id : Option Nat
deriving DecidableEq

/-- What `Income.__post_init__` (amount, client) plus the `date` type
itself guarantee about a constructed record. -/
def Income.wf (i : Income) : Prop :=
  0 ≤ i.amount ∧ i.income_date.validDate ∧ isBlankStr i.client = false

/-- `Event` dataclass (`src/models/event.py`). -/
structure Event where
  title : String
  event_date : PDate
  category : EventCategory
  start_time : Option PTime
  end_time : Option PTime
  recurrence : EventRecurrence
  color : Option String
  notes : String
  linked_income_id : Option Nat
  linked_expense_id : Option Nat
  id : Option Nat
deriving DecidableEq

/-- The time check in `Event.__post_init__`:
`self.start_time and self.end_time and self.end_time < self.start_time`
(on Python ≥ 3.5 every `time` object is truthy, so the guards test
presence). -/
def endBeforeStart (st et : Option PTime) : Bool :=
  match st, et with
  | some s, some e => PTime.ltB e s
  | _, _ => false

/-- Constructing an `Event`: the dataclass field assignment followed by
`__post_init__`, whose `ValueError`s become `Except.error`. -/
def mkEvent? (title : String) (event_date : PDate) (category : EventCategory)
    (start_time end_time : Option PTime) (recurrence : EventRecurrence)
    (color : Option String) (notes : String)
    (linked_income_id linked_expense_id : Option Nat) (id : Option Nat) :
    Except String Event :=
  if isBlankStr title then .error "Event title must not be empty"
  else if endBeforeStart start_time end_time then
    .error "End time must not be before start time"
  else .ok ⟨title, event_date, category, start_time, end_time, recurrence,
    color, notes, linked_income_id, linked_expense_id, id⟩

/-- What a constructed `Event` plus the `date`/`time` types guarantee. -/
def Event.wf (e : Event) : Prop :=
  isBlankStr e.title = false ∧ e.event_date.validDate ∧
    (∀ t ∈ e.start_time, t.validTime) ∧ (∀ t ∈ e.end_time, t.validTime) ∧
    endBeforeStart e.start_time e.end_time = false

/-! ## Rows and tables (the SQLite side of `src/repositories`) -/

/-- Run a fallible conversion over every element; `none` as soon as one
fails.  This is the list comprehension `[_row_to_x(r) for r in rows]`
with a raised exception modelled as `none`. -/
def parseAll? (f : α → Option β) : List α → Option (List β)
  | [] => some []
  | a :: l =>
      match f a, parseAll? f l with
      | some b, some bs => some (b :: bs)
      | _, _ => none

theorem parseAll?_forall2 {f : α → Option β} :
    ∀ {l : List α} {out : List β}, parseAll? f l = some out →
      List.Forall₂ (fun a b => f a = some b) l out
  | [], out, h => by
      simp only [parseAll?, Option.some.injEq] at h
      exact h ▸ List.Forall₂.nil
  | a :: l, out, h => by
      simp only [parseAll?] at h
      cases hfa : f a with
      | none => rw [hfa] at h; exact absurd h (by simp)
      | some b =>
          rw [hfa] at h
          cases hl : parseAll? f l with
          | none => rw [hl] at h; exact absurd h (by simp)
          | some bs =>
              rw [hl] at h
              simp only [Option.some.injEq] at h
              exact h ▸ List.Forall₂.cons hfa (parseAll?_forall2 hl)

theorem parseAll?_eq_some {f : α → Option β} :
    ∀ {l : List α}, (∀ a ∈ l, (f a).isSome) →
      ∃ out, parseAll? f l = some out
  | [], _ => ⟨[], rfl⟩
  | a :: l, h => by
      obtain ⟨b, hb⟩ := Option.isSome_iff_exists.mp (h a (List.mem_cons_self a l))
      obtain ⟨out, hout⟩ := parseAll?_eq_some (fun x hx => h x (List.mem_cons_of_mem a hx))
      exact ⟨b :: out, by simp [parseAll?, hb, hout]⟩

theorem forall2_map_eq {rel : α → β → Prop} {h : β → γ} {k : α → γ} :
    ∀ {l : List α} {out : List β}, List.Forall₂ rel l out →
      (∀ a b, rel a b → h b = k a) → out.map h = l.map k
  | _, _, List.Forall₂.nil, _ => rfl
  | _, _, List.Forall₂.cons hab hrest, hfun => by
      simp only [List.map_cons, hfun _ _ hab, forall2_map_eq hrest hfun]

theorem forall2_mem_right {rel : α → β → Prop} :
    ∀ {l : List α} {out : List β}, List.Forall₂ rel l out →
      ∀ {y : β}, y ∈ out → ∃ a ∈ l, rel a y
  | _, _, List.Forall₂.nil, _, hy => absurd hy (List.not_mem_nil _)
  | a :: l, b :: out, List.Forall₂.cons hab hrest, y, hy => by
      rcases List.mem_cons.mp hy with rfl | hy
      · exact ⟨a, List.mem_cons_self a l, hab⟩
      · obtain ⟨a', ha', hr⟩ := forall2_mem_right hrest hy
        exact ⟨a', List.mem_cons_of_mem a ha', hr⟩

theorem forall2_pairwise {rel : α → β → Prop} {R : α → α → Prop}
    {S : β → β → Prop} :
    ∀ {l : List α} {out : List β}, List.Forall₂ rel l out →
      l.Pairwise R →
      (∀ a b x y, a ∈ l → b ∈ l → R a b → rel a x → rel b y → S x y) →
      out.Pairwise S
  | _, _, List.Forall₂.nil, _, _ => List.Pairwise.nil
  | a :: l, b :: out, List.Forall₂.cons hab hrest, hR, himp => by
      rcases hR with _ | ⟨hhead, htail⟩
      refine List.Pairwise.cons ?_ ?_
      · intro y hy
        obtain ⟨a', ha', hr⟩ := forall2_mem_right hrest hy
        exact himp a a' b y (List.mem_cons_self a l)
          (List.mem_cons_of_mem a ha') (hhead a' ha') hab hr
      · exact forall2_pairwise hrest htail
          (fun x₁ x₂ y₁ y₂ h₁ h₂ => himp x₁ x₂ y₁ y₂
            (List.mem_cons_of_mem a h₁) (List.mem_cons_of_mem a h₂))

/-- A row of the `expenses` table, in its stored representation. -/
structure ExpenseRow where
  id : Nat
  amount : Int
  category : String
  expense_date : List Nat
  payment_method : String
  recurrence : String
  notes : String
deriving DecidableEq

/-- The tuple `ExpenseRepository.insert` binds into its `INSERT`
statement, together with the row id the store assigns. -/
def Expense.toRow (rowid : Nat) (e : Expense) : ExpenseRow :=
  ⟨rowid, e.amount, e.category.tag, isoDate e.expense_date,
    e.payment_method.tag, e.recurrence.tag, e.notes⟩

/-- `_row_to_expense`: reconstruct the dataclass from a stored row;
`none` where the enum lookups, `date.fromisoformat` or
`Expense.__post_init__` would raise. -/
def rowToExpense? (r : ExpenseRow) : Option Expense :=
  match ExpenseCategory.ofTag? r.category, fromIso? r.expense_date,
      PaymentMethod.ofTag? r.payment_method,
      RecurrenceType.ofTag? r.recurrence with
  | some c, some d, some p, some rc =>
      if 0 ≤ r.amount then some ⟨r.amount, c, d, p, rc, r.notes, some r.id⟩
      else none
  | _, _, _, _ => none

theorem rowToExpense?_toRow {e : Expense} (he : e.wf) (i : Nat) :
    rowToExpense? (e.toRow i) = some { e with id := some i } := by
  obtain ⟨h1, h2⟩ := he
  simp only [rowToExpense?, Expense.toRow, expenseCategory_ofTag_tag,
    fromIso?_isoDate h2, paymentMethod_ofTag_tag, recurrenceType_ofTag_tag]
  rw [if_pos h1]

/-- The `expenses` table: committed rows plus the `AUTOINCREMENT`
high-water mark. -/
structure ExpenseTable where
  rows : List ExpenseRow
  nextId : Nat
deriving DecidableEq

/-- Reachable-state invariant of the `expenses` table: every committed
row was written by `insert` from a validated dataclass, and carries an
id below the autoincrement counter. -/
def ExpenseTable.WF (s : ExpenseTable) : Prop :=
  ∀ r ∈ s.rows, r.id < s.nextId ∧ ∃ e : Expense, e.wf ∧ r = e.toRow r.id

/-- `ExpenseRepository.insert`: append the bound tuple as a fresh row and
return the dataclass rebuilt with `cursor.lastrowid`. -/
def ExpenseRepository.insert (s : ExpenseTable) (e : Expense) :
    ExpenseTable × Expense :=
  (⟨s.rows ++ [e.toRow s.nextId], s.nextId + 1⟩,
   ⟨e.amount, e.category, e.expense_date, e.payment_method, e.recurrence,
     e.notes, some s.nextId⟩)

/-- `ExpenseRepository.get_by_id`. -/
def ExpenseRepository.get_by_id (s : ExpenseTable) (i : Nat) :
    Option Expense :=
  match s.rows.find? (fun r => r.id == i) with
  | some r => rowToExpense? r
  | none => none

/-- `ORDER BY expense_date DESC` as a key comparison on rows. -/
def expenseDescLe (a b : ExpenseRow) : Bool :=
  lexLe b.expense_date a.expense_date

/-- `ExpenseRepository.get_by_month`: `expense_date LIKE 'YYYY-MM%'`,
`ORDER BY expense_date DESC`. -/
def ExpenseRepository.get_by_month (s : ExpenseTable) (y m : Nat) :
    Option (List Expense) :=
  parseAll? rowToExpense? (sortBy expenseDescLe
    (s.rows.filter (fun r => likeMatch (pad4 y ++ 45 :: pad2 m) r.expense_date)))

/-- `ExpenseRepository.get_by_year`: `expense_date LIKE 'YYYY%'`,
`ORDER BY expense_date DESC`. -/
def ExpenseRepository.get_by_year (s : ExpenseTable) (y : Nat) :
    Option (List Expense) :=
  parseAll? rowToExpense? (sortBy expenseDescLe
    (s.rows.filter (fun r => likeMatch (pad4 y) r.expense_date)))

/-- `ExpenseRepository.get_by_date_range`: inclusive bounds on the stored
ISO string, `ORDER BY expense_date DESC`. -/
def ExpenseRepository.get_by_date_range (s : ExpenseTable) (a b : PDate) :
    Option (List Expense) :=
  parseAll? rowToExpense? (sortBy expenseDescLe
    (s.rows.filter (fun r =>
      lexLe (isoDate a) r.expense_date && lexLe r.expense_date (isoDate b))))

/-- `ExpenseRepository.get_all`: `ORDER BY expense_date DESC`. -/
def ExpenseRepository.get_all (s : ExpenseTable) : Option (List Expense) :=
  parseAll? rowToExpense? (sortBy expenseDescLe s.rows)

/-- A row of the `incomes` table, in its stored representation. -/
structure IncomeRow where
  id : Nat
  amount : Int
  income_date : List Nat
  client : String
  job_type : String
  notes : String
deriving DecidableEq

/-- The tuple `IncomeRepository.insert` binds into its `INSERT`
statement, together with the row id the store assigns. -/
def Income.toRow (rowid : Nat) (i : Income) : IncomeRow :=
  ⟨rowid, i.amount, isoDate i.income_date, i.client, i.job_type.tag, i.notes⟩

/-- `_row_to_income`. -/
def rowToIncome? (r : IncomeRow) : Option Income :=
  match fromIso? r.income_date, JobType.ofTag? r.job_type with
  | some d, some j =>
      if 0 ≤ r.amount ∧ isBlankStr r.client = false then
        some ⟨r.amount, d, r.client, j, r.notes, some r.id⟩
      else none
  | _, _ => none

theorem rowToIncome?_toRow {i : Income} (hi : i.wf) (n : Nat) :
    rowToIncome? (i.toRow n) = some { i with id := some n } := by
  obtain ⟨h1, h2, h3⟩ := hi
  simp only [rowToIncome?, Income.toRow, fromIso?_isoDate h2,
    jobType_ofTag_tag]
  rw [if_pos ⟨h1, h3⟩]

/-- The `incomes` table. -/
structure IncomeTable where
  rows : List IncomeRow
  nextId : Nat
deriving DecidableEq

/-- Reachable-state invariant of the `incomes` table. -/
def IncomeTable.WF (s : IncomeTable) : Prop :=
  ∀ r ∈ s.rows, r.id < s.nextId ∧ ∃ i : Income, i.wf ∧ r = i.toRow r.id

/-- `IncomeRepository.insert`. -/
def IncomeRepository.insert (s : IncomeTable) (i : Income) :
    IncomeTable × Income :=
  (⟨s.rows ++ [i.toRow s.nextId], s.nextId + 1⟩,
   ⟨i.amount, i.income_date, i.client, i.job_type, i.notes, some s.nextId⟩)

/-- `IncomeRepository.get_by_id`. -/
def IncomeRepository.get_by_id (s : IncomeTable) (n : Nat) : Option Income :=
  match s.rows.find? (fun r => r.id == n) with
  | some r => rowToIncome? r
  | none => none

/-- `ORDER BY income_date DESC` as a key comparison on rows. -/
def incomeDescLe (a b : IncomeRow) : Bool :=
  lexLe b.income_date a.income_date

/-- `IncomeRepository.get_by_month`. -/
def IncomeRepository.get_by_month (s : IncomeTable) (y m : Nat) :
    Option (List Income) :=
  parseAll? rowToIncome? (sortBy incomeDescLe
    (s.rows.filter (fun r => likeMatch (pad4 y ++ 45 :: pad2 m) r.income_date)))

/-- `IncomeRepository.get_by_year`. -/
def IncomeRepository.get_by_year (s : IncomeTable) (y : Nat) :
    Option (List Income) :=
  parseAll? rowToIncome? (sortBy incomeDescLe
    (s.rows.filter (fun r => likeMatch (pad4 y) r.income_date)))

/-- `IncomeRepository.get_all`. -/
def IncomeRepository.get_all (s : IncomeTable) : Option (List Income) :=
  parseAll? rowToIncome? (sortBy incomeDescLe s.rows)

/-! ## Services (`src/services`) -/

/-- `ExpenseService.monthly_total`: `sum(e.amount for e in
self._repo.get_by_month(year, month))`. -/
def ExpenseService.monthly_total (s : ExpenseTable) (y m : Nat) : Option Int :=
  (ExpenseRepository.get_by_month s y m).map
    (fun l => (l.map Expense.amount).sum)

/-- `ExpenseService.yearly_total`. -/
def ExpenseService.yearly_total (s : ExpenseTable) (y : Nat) : Option Int :=
  (ExpenseRepository.get_by_year s y).map
    (fun l => (l.map Expense.amount).sum)

/-- The dict-building loop in `ExpenseService.category_totals`:
`totals[e.category] = totals.get(e.category, 0) + e.amount`, with dict
insertion order (first occurrence appends at the end). -/
def updateTotals (acc : List (ExpenseCategory × Int))
    (c : ExpenseCategory) (a : Int) : List (ExpenseCategory × Int) :=
  match acc with
  | [] => [(c, a)]
  | (c', t) :: rest =>
      if c' = c then (c', t + a) :: rest else (c', t) :: updateTotals rest c a

/-- The insertion-ordered dict `ExpenseService.category_totals` builds,
as an association list. -/
def categoryTotals (l : List Expense) : List (ExpenseCategory × Int) :=
  l.foldl (fun acc e => updateTotals acc e.category e.amount) []

/-- `ExpenseService.category_totals`. -/
def ExpenseService.category_totals (s : ExpenseTable) (y : Nat) :
    Option (List (ExpenseCategory × Int)) :=
  (ExpenseRepository.get_by_year s y).map categoryTotals

/-- `IncomeService.monthly_total`. -/
def IncomeService.monthly_total (s : IncomeTable) (y m : Nat) : Option Int :=
  (IncomeRepository.get_by_month s y m).map
    (fun l => (l.map Income.amount).sum)

/-- `IncomeService.yearly_total`. -/
def IncomeService.yearly_total (s : IncomeTable) (y : Nat) : Option Int :=
  (IncomeRepository.get_by_year s y).map
    (fun l => (l.map Income.amount).sum)

/-! ## Tax summary (`src/models/tax.py`, `src/services/tax_service.py`) -/

/-- `CategoryBreakdown` dataclass. -/
structure CategoryBreakdown where
  category : String
  category_label : String
  total : Int
deriving DecidableEq

/-- `TaxSummary` dataclass (without the computed property). -/
structure TaxSummary where
  year : Nat
  gross_income : Int
  total_expenses : Int
  expense_breakdown : List CategoryBreakdown
deriving DecidableEq

/-- The computed property `TaxSummary.net_income`. -/
def TaxSummary.net_income (s : TaxSummary) : Int :=
  s.gross_income - s.total_expenses

/-- One `CategoryBreakdown(category=cat.value, category_label=..., total=amount)`
entry built by `TaxService.get_tax_summary`. -/
def mkBreakdown (p : ExpenseCategory × Int) : CategoryBreakdown :=
  ⟨p.1.tag, p.1.taxLabel, p.2⟩

/-- `sorted(category_totals.items(), key=lambda x: x[1], reverse=True)`:
Python's stable descending sort on the amount. -/
def totalsDescLe (a b : ExpenseCategory × Int) : Bool := decide (b.2 ≤ a.2)

/-- `TaxService.get_tax_summary`. -/
def TaxService.get_tax_summary (inc : IncomeTable) (exp : ExpenseTable)
    (y : Nat) : Option TaxSummary :=
  match IncomeService.yearly_total inc y, ExpenseService.yearly_total exp y,
      ExpenseService.category_totals exp y with
  | some g, some t, some ct =>
      some ⟨y, g, t, (sortBy totalsDescLe ct).map mkBreakdown⟩
  | _, _, _ => none

/-! ## CSV export (`src/services/export_csv.py`) -/

/-- One data row written by `export_income_csv`, fields in emitted order. -/
structure IncomeCsvRow where
  date : List Nat
  amount : Int
  client : String
  job_type : String
  notes : String
deriving DecidableEq

def incomeCsvRow (i : Income) : IncomeCsvRow :=
  ⟨isoDate i.income_date, i.amount, i.client, i.job_type.tag, i.notes⟩

/-- `sorted(incomes, key=lambda x: x.income_date)`: Python's stable
ascending sort on the date object. -/
def incomeDateAscLe (a b : Income) : Bool :=
  PDate.leB a.income_date b.income_date

/-- The data rows (everything after the header row) written by
`export_income_csv`, in emitted order. -/
def export_income_csv (l : List Income) : List IncomeCsvRow :=
  (sortBy incomeDateAscLe l).map incomeCsvRow

/-- One data row written by `export_expenses_csv`, fields in emitted
order. -/
structure ExpenseCsvRow where
  date : List Nat
  amount : Int
  category : String
  payment_method : String
  recurrence : String
  notes : String
deriving DecidableEq

def expenseCsvRow (e : Expense) : ExpenseCsvRow :=
  ⟨isoDate e.expense_date, e.amount, e.category.tag, e.payment_method.tag,
    e.recurrence.tag, e.notes⟩

/-- `sorted(expenses, key=lambda x: x.expense_date)`. -/
def expenseDateAscLe (a b : Expense) : Bool :=
  PDate.leB a.expense_date b.expense_date

/-- The data rows written by `export_expenses_csv`, in emitted order. -/
def export_expenses_csv (l : List Expense) : List ExpenseCsvRow :=
  (sortBy expenseDateAscLe l).map expenseCsvRow

/-! ## Event repository (`src/repositories/event_repo.py`) -/

/-- A row of the `events` table, in its stored representation. -/
structure EventRow where
  id : Nat
  title : String
  event_date : List Nat
  category : String
  start_time : Option (List Nat)
  end_time : Option (List Nat)
  recurrence : String
  color : Option String
  notes : String
  linked_income_id : Option Nat
  linked_expense_id : Option Nat
deriving DecidableEq

/-- `_format_time`: `None` stays `NULL`, otherwise `strftime("%H:%M")`. -/
def formatTimeOpt : Option PTime → Option (List Nat)
  | none => none
  | some t => some (timeStr t)

/-- `_parse_time` on a nullable stored value; the outer `Option` is the
exception channel of the inner parse. -/
def parseTimeOpt? : Option (List Nat) → Option (Option PTime)
  | none => some none
  | some s => (parseTime? s).map some

/-- The tuple `EventRepository.insert` binds into its `INSERT` statement,
with the assigned row id. -/
def Event.toRow (rowid : Nat) (e : Event) : EventRow :=
  ⟨rowid, e.title, isoDate e.event_date, e.category.tag,
    formatTimeOpt e.start_time, formatTimeOpt e.end_time, e.recurrence.tag,
    e.color, e.notes, e.linked_income_id, e.linked_expense_id⟩

/-- `_row_to_event`: rebuild the dataclass (re-running `Event.__post_init__`,
which `Event(...)` triggers); `none` where Python would raise. -/
def rowToEvent? (r : EventRow) : Option Event :=
  match fromIso? r.event_date, EventCategory.ofTag? r.category,
      parseTimeOpt? r.start_time, parseTimeOpt? r.end_time,
      EventRecurrence.ofTag? r.recurrence with
  | some d, some c, some st, some et, some rc =>
      match mkEvent? r.title d c st et rc r.color r.notes
          r.linked_income_id r.linked_expense_id (some r.id) with
      | .ok e => some e
      | .error _ => none
  | _, _, _, _, _ => none

/-- The `events` table. -/
structure EventTable where
  rows : List EventRow
  nextId : Nat
deriving DecidableEq

/-- Reachable-state invariant of the `events` table. -/
def EventTable.WF (s : EventTable) : Prop :=
  ∀ r ∈ s.rows, r.id < s.nextId ∧ ∃ e : Event, e.wf ∧ r = e.toRow r.id

/-- `EventRepository.insert`. -/
def EventRepository.insert (s : EventTable) (e : Event) :
    EventTable × Event :=
  (⟨s.rows ++ [e.toRow s.nextId], s.nextId + 1⟩,
   ⟨e.title, e.event_date, e.category, e.start_time, e.end_time,
     e.recurrence, e.color, e.notes, e.linked_income_id,
     e.linked_expense_id, some s.nextId⟩)

/-- `EventRepository.get_by_id`. -/
def EventRepository.get_by_id (s : EventTable) (i : Nat) : Option Event :=
  match s.rows.find? (fun r => r.id == i) with
  | some r => rowToEvent? r
  | none => none

/-- `ORDER BY start_time` (within one date): ascending on the stored
`HH:MM` text with `NULL` first. -/
def eventStartAscLe (a b : EventRow) : Bool :=
  optKeyLe lexLe a.start_time b.start_time

/-- `ORDER BY event_date, start_time`. -/
def eventAscLe (a b : EventRow) : Bool :=
  if a.event_date = b.event_date then
    optKeyLe lexLe a.start_time b.start_time
  else lexLe a.event_date b.event_date

/-- `ORDER BY event_date DESC, start_time` (used by `get_all`). -/
def eventAllLe (a b : EventRow) : Bool :=
  if a.event_date = b.event_date then
    optKeyLe lexLe a.start_time b.start_time
  else lexLe b.event_date a.event_date

/-- `EventRepository.get_by_date`: `WHERE event_date=?` then
`ORDER BY start_time`. -/
def EventRepository.get_by_date (s : EventTable) (d : PDate) :
    Option (List Event) :=
  parseAll? rowToEvent? (sortBy eventStartAscLe
    (s.rows.filter (fun r => r.event_date == isoDate d)))

/-- `EventRepository.get_by_month`: `event_date LIKE 'YYYY-MM%'`,
`ORDER BY event_date, start_time`. -/
def EventRepository.get_by_month (s : EventTable) (y m : Nat) :
    Option (List Event) :=
  parseAll? rowToEvent? (sortBy eventAscLe
    (s.rows.filter (fun r => likeMatch (pad4 y ++ 45 :: pad2 m) r.event_date)))

/-- `EventRepository.get_by_date_range`: inclusive bounds on the stored
ISO string, `ORDER BY event_date, start_time`. -/
def EventRepository.get_by_date_range (s : EventTable) (a b : PDate) :
    Option (List Event) :=
  parseAll? rowToEvent? (sortBy eventAscLe
    (s.rows.filter (fun r =>
      lexLe (isoDate a) r.event_date && lexLe r.event_date (isoDate b))))

/-- `EventRepository.get_all`: `ORDER BY event_date DESC, start_time`. -/
def EventRepository.get_all (s : EventTable) : Option (List Event) :=
  parseAll? rowToEvent? (sortBy eventAllLe s.rows)

/-! ## Row-conversion inversion lemmas -/

theorem rowToExpense?_inv {r : ExpenseRow} {e : Expense}
    (h : rowToExpense? r = some e) :
    e.amount = r.amount ∧ ExpenseCategory.ofTag? r.category = some e.category ∧
      fromIso? r.expense_date = some e.expense_date ∧ e.id = some r.id := by
  unfold rowToExpense? at h
  split at h
  · rename_i c d p rc hc hd hp hrc
    split at h
    · injection h with h'
      subst h'
      exact ⟨rfl, hc, hd, rfl⟩
    · cases h
  · cases h

theorem rowToIncome?_inv {r : IncomeRow} {i : Income}
    (h : rowToIncome? r = some i) :
    i.amount = r.amount ∧ fromIso? r.income_date = some i.income_date ∧
      i.id = some r.id := by
  unfold rowToIncome? at h
  split at h
  · rename_i d j hd hj
    split at h
    · injection h with h'
      subst h'
      exact ⟨rfl, hd, rfl⟩
    · cases h
  · cases h

/-! ## Semantic date predicates on stored rows

These express, on the stored representation, the specification's phrase
"record whose date's year (and month) equals ...". -/

def rowInMonthE (y m : Nat) (r : ExpenseRow) : Bool :=
  match fromIso? r.expense_date with
  | some d => decide (d.year = y ∧ d.month = m)
  | none => false

def rowInYearE (y : Nat) (r : ExpenseRow) : Bool :=
  match fromIso? r.expense_date with
  | some d => decide (d.year = y)
  | none => false

def rowInMonthI (y m : Nat) (r : IncomeRow) : Bool :=
  match fromIso? r.income_date with
  | some d => decide (d.year = y ∧ d.month = m)
  | none => false

def rowInYearI (y : Nat) (r : IncomeRow) : Bool :=
  match fromIso? r.income_date with
  | some d => decide (d.year = y)
  | none => false

/-! ## Evaluating the aggregation queries under the table invariant -/

theorem expense_month_filter {s : ExpenseTable} (hwf : s.WF) (y m : Nat) :
    s.rows.filter (fun r => likeMatch (pad4 y ++ 45 :: pad2 m) r.expense_date)
      = s.rows.filter (rowInMonthE y m) := by
  apply List.filter_congr
  intro r hr
  obtain ⟨-, e, he, hre⟩ := hwf r hr
  have hdate : r.expense_date = isoDate e.expense_date := by rw [hre]; rfl
  simp only [hdate, likeMatch_month he.2, rowInMonthE,
    fromIso?_isoDate he.2]

theorem expense_year_filter {s : ExpenseTable} (hwf : s.WF) (y : Nat) :
    s.rows.filter (fun r => likeMatch (pad4 y) r.expense_date)
      = s.rows.filter (rowInYearE y) := by
  apply List.filter_congr
  intro r hr
  obtain ⟨-, e, he, hre⟩ := hwf r hr
  have hdate : r.expense_date = isoDate e.expense_date := by rw [hre]; rfl
  simp only [hdate, likeMatch_year he.2, rowInYearE,
    fromIso?_isoDate he.2]

theorem income_month_filter {s : IncomeTable} (hwf : s.WF) (y m : Nat) :
    s.rows.filter (fun r => likeMatch (pad4 y ++ 45 :: pad2 m) r.income_date)
      = s.rows.filter (rowInMonthI y m) := by
  apply List.filter_congr
  intro r hr
  obtain ⟨-, i, hi, hri⟩ := hwf r hr
  have hdate : r.income_date = isoDate i.income_date := by rw [hri]; rfl
  simp only [hdate, likeMatch_month hi.2.1, rowInMonthI,
    fromIso?_isoDate hi.2.1]

theorem income_year_filter {s : IncomeTable} (hwf : s.WF) (y : Nat) :
    s.rows.filter (fun r => likeMatch (pad4 y) r.income_date)
      = s.rows.filter (rowInYearI y) := by
  apply List.filter_congr
  intro r hr
  obtain ⟨-, i, hi, hri⟩ := hwf r hr
  have hdate : r.income_date = isoDate i.income_date := by rw [hri]; rfl
  simp only [hdate, likeMatch_year hi.2.1, rowInYearI,
    fromIso?_isoDate hi.2.1]

theorem expense_parse_ok {s : ExpenseTable} (hwf : s.WF)
    (rows : List ExpenseRow) (hsub : ∀ r ∈ rows, r ∈ s.rows) :
    ∃ out, parseAll? rowToExpense? rows = some out ∧
      (out.map Expense.amount).sum = (rows.map ExpenseRow.amount).sum := by
  have hsome : ∀ r ∈ rows, (rowToExpense? r).isSome := by
    intro r hr
    obtain ⟨-, e, he, hre⟩ := hwf r (hsub r hr)
    rw [hre, rowToExpense?_toRow he]
    rfl
  obtain ⟨out, hout⟩ := parseAll?_eq_some hsome
  refine ⟨out, hout, ?_⟩
  rw [forall2_map_eq (parseAll?_forall2 hout)
    (fun a b hab => (rowToExpense?_inv hab).1)]

theorem income_parse_ok {s : IncomeTable} (hwf : s.WF)
    (rows : List IncomeRow) (hsub : ∀ r ∈ rows, r ∈ s.rows) :
    ∃ out, parseAll? rowToIncome? rows = some out ∧
      (out.map Income.amount).sum = (rows.map IncomeRow.amount).sum := by
  have hsome : ∀ r ∈ rows, (rowToIncome? r).isSome := by
    intro r hr
    obtain ⟨-, i, hi, hri⟩ := hwf r (hsub r hr)
    rw [hri, rowToIncome?_toRow hi]
    rfl
  obtain ⟨out, hout⟩ := parseAll?_eq_some hsome
  refine ⟨out, hout, ?_⟩
  rw [forall2_map_eq (parseAll?_forall2 hout)
    (fun a b hab => (rowToIncome?_inv hab).1)]

theorem expense_monthly_total_eval {s : ExpenseTable} (hwf : s.WF)
    (y m : Nat) :
    ExpenseService.monthly_total s y m =
      some (((s.rows.filter (rowInMonthE y m)).map ExpenseRow.amount).sum) := by
  unfold ExpenseService.monthly_total ExpenseRepository.get_by_month
  rw [expense_month_filter hwf y m]
  obtain ⟨out, hout, hsum⟩ := expense_parse_ok hwf
    (sortBy expenseDescLe (s.rows.filter (rowInMonthE y m)))
    (fun r hr => List.mem_of_mem_filter (mem_sortBy hr))
  rw [hout]
  show some ((out.map Expense.amount).sum) = _
  rw [hsum, sum_map_sortBy]

theorem expense_yearly_total_eval {s : ExpenseTable} (hwf : s.WF)
    (y : Nat) :
    ExpenseService.yearly_total s y =
      some (((s.rows.filter (rowInYearE y)).map ExpenseRow.amount).sum) := by
  unfold ExpenseService.yearly_total ExpenseRepository.get_by_year
  rw [expense_year_filter hwf y]
  obtain ⟨out, hout, hsum⟩ := expense_parse_ok hwf
    (sortBy expenseDescLe (s.rows.filter (rowInYearE y)))
    (fun r hr => List.mem_of_mem_filter (mem_sortBy hr))
  rw [hout]
  show some ((out.map Expense.amount).sum) = _
  rw [hsum, sum_map_sortBy]

theorem income_monthly_total_eval {s : IncomeTable} (hwf : s.WF)
    (y m : Nat) :
    IncomeService.monthly_total s y m =
      some (((s.rows.filter (rowInMonthI y m)).map IncomeRow.amount).sum) := by
  unfold IncomeService.monthly_total IncomeRepository.get_by_month
  rw [income_month_filter hwf y m]
  obtain ⟨out, hout, hsum⟩ := income_parse_ok hwf
    (sortBy incomeDescLe (s.rows.filter (rowInMonthI y m)))
    (fun r hr => List.mem_of_mem_filter (mem_sortBy hr))
  rw [hout]
  show some ((out.map Income.amount).sum) = _
  rw [hsum, sum_map_sortBy]

theorem income_yearly_total_eval {s : IncomeTable} (hwf : s.WF)
    (y : Nat) :
    IncomeService.yearly_total s y =
      some (((s.rows.filter (rowInYearI y)).map IncomeRow.amount).sum) := by
  unfold IncomeService.yearly_total IncomeRepository.get_by_year
  rw [income_year_filter hwf y]
  obtain ⟨out, hout, hsum⟩ := income_parse_ok hwf
    (sortBy incomeDescLe (s.rows.filter (rowInYearI y)))
    (fun r hr => List.mem_of_mem_filter (mem_sortBy hr))
  rw [hout]
  show some ((out.map Income.amount).sum) = _
  rw [hsum, sum_map_sortBy]

theorem expense_year_query {s : ExpenseTable} (hwf : s.WF) (y : Nat) :
    ∃ out, ExpenseRepository.get_by_year s y = some out ∧
      List.Forall₂ (fun r e => rowToExpense? r = some e)
        (sortBy expenseDescLe (s.rows.filter (rowInYearE y))) out := by
  unfold ExpenseRepository.get_by_year
  rw [expense_year_filter hwf y]
  have hsome : ∀ r ∈ sortBy expenseDescLe (s.rows.filter (rowInYearE y)),
      (rowToExpense? r).isSome := by
    intro r hr
    obtain ⟨-, e, he, hre⟩ :=
      hwf r (List.mem_of_mem_filter (mem_sortBy hr))
    rw [hre, rowToExpense?_toRow he]
    rfl
  obtain ⟨out, hout⟩ := parseAll?_eq_some hsome
  exact ⟨out, hout, parseAll?_forall2 hout⟩

theorem income_year_query {s : IncomeTable} (hwf : s.WF) (y : Nat) :
    ∃ out, IncomeRepository.get_by_year s y = some out ∧
      List.Forall₂ (fun r i => rowToIncome? r = some i)
        (sortBy incomeDescLe (s.rows.filter (rowInYearI y))) out := by
  unfold IncomeRepository.get_by_year
  rw [income_year_filter hwf y]
  have hsome : ∀ r ∈ sortBy incomeDescLe (s.rows.filter (rowInYearI y)),
      (rowToIncome? r).isSome := by
    intro r hr
    obtain ⟨-, i, hi, hri⟩ :=
      hwf r (List.mem_of_mem_filter (mem_sortBy hr))
    rw [hri, rowToIncome?_toRow hi]
    rfl
  obtain ⟨out, hout⟩ := parseAll?_eq_some hsome
  exact ⟨out, hout, parseAll?_forall2 hout⟩

/-! ## Claim theorems -/

/-- **C1.** For every year `y` (over the representable domain of
`datetime.date` years) and any reachable pair of stores, `get_tax_summary`
returns a summary whose `net_income` equals
`gross_income - total_expenses` with no clamping, and when no income or
expense record is dated in year `y`, its `gross_income`, `total_expenses`
and `net_income` are `0` and its `expense_breakdown` is empty. -/
theorem C1_tax_summary_net_income_and_empty_year
    (inc : IncomeTable) (exp : ExpenseTable) (y : Nat)
    (hwfi : inc.WF) (hwfe : exp.WF) :
    ∃ ts, TaxService.get_tax_summary inc exp y = some ts ∧
      ts.net_income = ts.gross_income - ts.total_expenses ∧
      ((∀ r ∈ inc.rows, rowInYearI y r = false) →
       (∀ r ∈ exp.rows, rowInYearE y r = false) →
        ts.gross_income = 0 ∧ ts.total_expenses = 0 ∧ ts.net_income = 0 ∧
          ts.expense_breakdown = []) := by
  obtain ⟨oi, hoi, hfi⟩ := income_year_query hwfi y
  obtain ⟨oe, hoe, hfe⟩ := expense_year_query hwfe y
  have hg : IncomeService.yearly_total inc y =
      some ((oi.map Income.amount).sum) := by
    unfold IncomeService.yearly_total
    rw [hoi]
    rfl
  have ht : ExpenseService.yearly_total exp y =
      some ((oe.map Expense.amount).sum) := by
    unfold ExpenseService.yearly_total
    rw [hoe]
    rfl
  have hct : ExpenseService.category_totals exp y =
      some (categoryTotals oe) := by
    unfold ExpenseService.category_totals
    rw [hoe]
    rfl
  refine ⟨⟨y, (oi.map Income.amount).sum, (oe.map Expense.amount).sum,
    (sortBy totalsDescLe (categoryTotals oe)).map mkBreakdown⟩, ?_, rfl, ?_⟩
  · unfold TaxService.get_tax_summary
    rw [hg, ht, hct]
  · intro hinone henone
    have hfiltI : inc.rows.filter (rowInYearI y) = [] := by
      rw [List.filter_eq_nil_iff]
      intro r hr
      simp [hinone r hr]
    have hfiltE : exp.rows.filter (rowInYearE y) = [] := by
      rw [List.filter_eq_nil_iff]
      intro r hr
      simp [henone r hr]
    rw [hfiltI] at hfi
    rw [hfiltE] at hfe
    have hoi0 : oi = [] := by
      cases hfi
      rfl
    have hoe0 : oe = [] := by
      cases hfe
      rfl
    subst hoi0 hoe0
    refine ⟨rfl, rfl, rfl, rfl⟩

/-! ## Concrete fixtures used by witnesses -/

def incA : Income := ⟨500000, ⟨2025, 3, 1⟩, "Client A", .CONTRACT, "", none⟩

def expRent : Expense := ⟨100000, .RENT, ⟨2025, 1, 1⟩, .CASH, .NONE, "", none⟩

def expUtil : Expense :=
  ⟨20000, .UTILITIES, ⟨2025, 2, 1⟩, .BANK_TRANSFER, .NONE, "", none⟩

def incTable1 : IncomeTable := ⟨[incA.toRow 1], 2⟩

def expTable1 : ExpenseTable := ⟨[expRent.toRow 1, expUtil.toRow 2], 3⟩

theorem incTable1_wf : incTable1.WF := by
  intro r hr
  rcases List.mem_singleton.mp hr with rfl
  exact ⟨by decide, incA, ⟨by decide, by decide, by decide⟩, rfl⟩

theorem expTable1_wf : expTable1.WF := by
  intro r hr
  rcases List.mem_cons.mp hr with rfl | hr
  · exact ⟨by decide, expRent, ⟨by decide, by decide⟩, rfl⟩
  · rcases List.mem_singleton.mp hr with rfl
    exact ⟨by decide, expUtil, ⟨by decide, by decide⟩, rfl⟩

/-- Witness for C1: the hypotheses hold and the theorem applies at the
concrete stores `incTable1`, `expTable1` and year 2025. -/
theorem C1_witness :
    incTable1.WF ∧ expTable1.WF ∧
      (∃ ts, TaxService.get_tax_summary incTable1 expTable1 2025 = some ts ∧
        ts.net_income = ts.gross_income - ts.total_expenses ∧
        ((∀ r ∈ incTable1.rows, rowInYearI 2025 r = false) →
         (∀ r ∈ expTable1.rows, rowInYearE 2025 r = false) →
          ts.gross_income = 0 ∧ ts.total_expenses = 0 ∧ ts.net_income = 0 ∧
            ts.expense_breakdown = [])) :=
  ⟨incTable1_wf, expTable1_wf,
    C1_tax_summary_net_income_and_empty_year incTable1 expTable1 2025
      incTable1_wf expTable1_wf⟩

/-- **C2.** For every year `y` and month `m`, `monthly_total(y, m)` on
both services equals the exact integer sum of `amount` over every
persisted record whose date's year and month equal `(y, m)`, and in
particular equals `0` when no such record exists. -/
theorem C2_monthly_total_sums
    (et : ExpenseTable) (it : IncomeTable) (y m : Nat)
    (hwfe : et.WF) (hwfi : it.WF) :
    ExpenseService.monthly_total et y m =
      some (((et.rows.filter (rowInMonthE y m)).map ExpenseRow.amount).sum) ∧
    IncomeService.monthly_total it y m =
      some (((it.rows.filter (rowInMonthI y m)).map IncomeRow.amount).sum) ∧
    ((∀ r ∈ et.rows, rowInMonthE y m r = false) →
      ExpenseService.monthly_total et y m = some 0) ∧
    ((∀ r ∈ it.rows, rowInMonthI y m r = false) →
      IncomeService.monthly_total it y m = some 0) := by
  refine ⟨expense_monthly_total_eval hwfe y m,
    income_monthly_total_eval hwfi y m, ?_, ?_⟩
  · intro hnone
    rw [expense_monthly_total_eval hwfe y m]
    have : et.rows.filter (rowInMonthE y m) = [] := by
      rw [List.filter_eq_nil_iff]
      intro r hr
      simp [hnone r hr]
    rw [this]
    rfl
  · intro hnone
    rw [income_monthly_total_eval hwfi y m]
    have : it.rows.filter (rowInMonthI y m) = [] := by
      rw [List.filter_eq_nil_iff]
      intro r hr
      simp [hnone r hr]
    rw [this]
    rfl

/-- Witness for C2 at the concrete stores and (2025, 3); the monthly
totals evaluate to the fixture amounts. -/
theorem C2_witness :
    expTable1.WF ∧ incTable1.WF ∧
      (ExpenseService.monthly_total expTable1 2025 3 =
        some (((expTable1.rows.filter (rowInMonthE 2025 3)).map
          ExpenseRow.amount).sum) ∧
      IncomeService.monthly_total incTable1 2025 3 =
        some (((incTable1.rows.filter (rowInMonthI 2025 3)).map
          IncomeRow.amount).sum) ∧
      ((∀ r ∈ expTable1.rows, rowInMonthE 2025 3 r = false) →
        ExpenseService.monthly_total expTable1 2025 3 = some 0) ∧
      ((∀ r ∈ incTable1.rows, rowInMonthI 2025 3 r = false) →
        IncomeService.monthly_total incTable1 2025 3 = some 0)) ∧
    IncomeService.monthly_total incTable1 2025 3 = some 500000 ∧
    ExpenseService.monthly_total expTable1 2025 3 = some 0 :=
  ⟨expTable1_wf, incTable1_wf,
    C2_monthly_total_sums expTable1 incTable1 2025 3 expTable1_wf incTable1_wf,
    by decide, by decide⟩

theorem mem_updateTotals {acc : List (ExpenseCategory × Int)}
    {c : ExpenseCategory} {a : Int} {p : ExpenseCategory × Int}
    (h : p ∈ updateTotals acc c a) :
    p.1 = c ∨ ∃ q ∈ acc, q.1 = p.1 := by
  induction acc with
  | nil =>
      simp only [updateTotals, List.mem_singleton] at h
      subst h
      exact Or.inl rfl
  | cons q rest ih =>
      obtain ⟨c', t⟩ := q
      simp only [updateTotals] at h
      split at h
      · rcases List.mem_cons.mp h with rfl | h
        · exact Or.inr ⟨(c', t), List.mem_cons_self _ _, rfl⟩
        · exact Or.inr ⟨p, List.mem_cons_of_mem _ h, rfl⟩
      · rcases List.mem_cons.mp h with rfl | h
        · exact Or.inr ⟨(c', t), List.mem_cons_self _ _, rfl⟩
        · rcases ih h with h' | ⟨q, hq, hq'⟩
          · exact Or.inl h'
          · exact Or.inr ⟨q, List.mem_cons_of_mem _ hq, hq'⟩

theorem sum_updateTotals (acc : List (ExpenseCategory × Int))
    (c : ExpenseCategory) (a : Int) :
    ((updateTotals acc c a).map Prod.snd).sum =
      (acc.map Prod.snd).sum + a := by
  induction acc with
  | nil => simp [updateTotals]
  | cons q rest ih =>
      obtain ⟨c', t⟩ := q
      simp only [updateTotals]
      split
      · simp [List.map_cons]
        ring
      · simp only [List.map_cons, List.sum_cons, ih]
        ring

theorem mem_categoryTotals_foldl :
    ∀ (l : List Expense) (acc : List (ExpenseCategory × Int))
      (p : ExpenseCategory × Int),
      p ∈ l.foldl (fun acc e => updateTotals acc e.category e.amount) acc →
      (∃ q ∈ acc, q.1 = p.1) ∨ ∃ e ∈ l, e.category = p.1
  | [], acc, p, h => Or.inl ⟨p, h, rfl⟩
  | e :: l, acc, p, h => by
      rcases mem_categoryTotals_foldl l _ p h with ⟨q, hq, hq'⟩ | ⟨e', he', he''⟩
      · rcases mem_updateTotals hq with h' | ⟨q', hq₂, hq₂'⟩
        · exact Or.inr ⟨e, List.mem_cons_self _ _, h' ▸ hq'⟩
        · exact Or.inl ⟨q', hq₂, hq₂'.trans hq'⟩
      · exact Or.inr ⟨e', List.mem_cons_of_mem _ he', he''⟩

theorem sum_categoryTotals_foldl :
    ∀ (l : List Expense) (acc : List (ExpenseCategory × Int)),
      ((l.foldl (fun acc e => updateTotals acc e.category e.amount) acc).map
        Prod.snd).sum = (acc.map Prod.snd).sum + (l.map Expense.amount).sum
  | [], acc => by simp
  | e :: l, acc => by
      simp only [List.foldl_cons, sum_categoryTotals_foldl l,
        sum_updateTotals, List.map_cons, List.sum_cons]
      ring

theorem mem_categoryTotals {l : List Expense} {p : ExpenseCategory × Int}
    (h : p ∈ categoryTotals l) : ∃ e ∈ l, e.category = p.1 := by
  rcases mem_categoryTotals_foldl l [] p h with ⟨q, hq, -⟩ | h'
  · exact absurd hq (List.not_mem_nil q)
  · exact h'

theorem sum_categoryTotals (l : List Expense) :
    ((categoryTotals l).map Prod.snd).sum = (l.map Expense.amount).sum := by
  have := sum_categoryTotals_foldl l []
  simpa [categoryTotals] using this

/-- **C4.** For every year, `category_totals(y)` has a key only for
categories with at least one expense record dated in year `y`, and its
values sum to `yearly_total(y)`. -/
theorem C4_category_totals
    (et : ExpenseTable) (y : Nat) (hwf : et.WF) :
    ∃ ct, ExpenseService.category_totals et y = some ct ∧
      (∀ p ∈ ct, ∃ r ∈ et.rows, rowInYearE y r = true ∧
        ExpenseCategory.ofTag? r.category = some p.1) ∧
      ExpenseService.yearly_total et y = some ((ct.map Prod.snd).sum) := by
  obtain ⟨out, hout, hf⟩ := expense_year_query hwf y
  have hct : ExpenseService.category_totals et y =
      some (categoryTotals out) := by
    unfold ExpenseService.category_totals
    rw [hout]
    rfl
  refine ⟨categoryTotals out, hct, ?_, ?_⟩
  · intro p hp
    obtain ⟨e, he, hcat⟩ := mem_categoryTotals hp
    obtain ⟨r, hr, hrel⟩ := forall2_mem_right hf he
    have hmem := List.mem_filter.mp (mem_sortBy hr)
    refine ⟨r, hmem.1, hmem.2, ?_⟩
    rw [(rowToExpense?_inv hrel).2.1, hcat]
  · unfold ExpenseService.yearly_total
    rw [hout]
    show some ((out.map Expense.amount).sum) = _
    rw [sum_categoryTotals]

/-- Witness for C4 at the concrete store and year 2025; the totals
mapping evaluates to the two fixture categories. -/
theorem C4_witness :
    expTable1.WF ∧
      (∃ ct, ExpenseService.category_totals expTable1 2025 = some ct ∧
        (∀ p ∈ ct, ∃ r ∈ expTable1.rows, rowInYearE 2025 r = true ∧
          ExpenseCategory.ofTag? r.category = some p.1) ∧
        ExpenseService.yearly_total expTable1 2025 =
          some ((ct.map Prod.snd).sum)) ∧
    ExpenseService.category_totals expTable1 2025 =
      some [(.UTILITIES, 20000), (.RENT, 100000)] ∧
    ExpenseService.yearly_total expTable1 2025 = some 120000 :=
  ⟨expTable1_wf, C4_category_totals expTable1 2025 expTable1_wf,
    by decide, by decide⟩

theorem sum_map_ite_count (q : Nat → Bool) (a : Int) (f : Nat → Int) :
    ∀ M : List Nat,
      (M.map (fun x => if q x then a + f x else f x)).sum
        = (M.countP q : Int) * a + (M.map f).sum
  | [] => by simp
  | x :: M => by
      by_cases h : q x
      · simp only [h, if_true, List.map_cons, List.sum_cons,
          sum_map_ite_count q a f M, List.countP_cons]
        push_cast
        ring
      · simp only [h, if_false, List.map_cons, List.sum_cons,
          sum_map_ite_count q a f M, List.countP_cons]
        push_cast
        ring

theorem sum_filter_by_keys {α : Type} (M : List Nat) (p : Nat → α → Bool)
    (amt : α → Int) :
    ∀ rows : List α,
      (M.map (fun x => ((rows.filter (p x)).map amt).sum)).sum
        = (rows.map (fun r =>
            ((M.countP (fun x => p x r) : Int)) * amt r)).sum
  | [] => by simp
  | r :: rows => by
      have step : (M.map (fun x =>
          (((r :: rows).filter (p x)).map amt).sum)).sum
          = (M.map (fun x => if p x r then
              amt r + ((rows.filter (p x)).map amt).sum
            else ((rows.filter (p x)).map amt).sum)).sum := by
        congr 1
        apply List.map_congr_left
        intro x hx
        by_cases h : p x r <;> simp [List.filter, h]
      rw [step, sum_map_ite_count, sum_filter_by_keys M p amt rows]
      simp [List.map_cons, List.sum_cons]

theorem countP_range12 {mo : Nat} (h1 : 1 ≤ mo) (h2 : mo ≤ 12) :
    (List.range 12).countP (fun i => decide (mo = i + 1)) = 1 := by
  interval_cases mo <;> decide

/-- **C6.** If every persisted record's date lies in year `y`, then
`yearly_total(y)` equals the sum of `monthly_total(y, m)` over
`m = 1..12`, for both services. -/
theorem C6_yearly_total_partitions
    (et : ExpenseTable) (it : IncomeTable) (y : Nat)
    (hwfe : et.WF) (hwfi : it.WF) :
    ((∀ r ∈ et.rows, rowInYearE y r = true) →
      ∃ ms : List Int,
        ((List.range 12).map fun i =>
          ExpenseService.monthly_total et y (i + 1)) = ms.map some ∧
        ExpenseService.yearly_total et y = some ms.sum) ∧
    ((∀ r ∈ it.rows, rowInYearI y r = true) →
      ∃ ms : List Int,
        ((List.range 12).map fun i =>
          IncomeService.monthly_total it y (i + 1)) = ms.map some ∧
        IncomeService.yearly_total it y = some ms.sum) := by
  constructor
  · intro hall
    refine ⟨(List.range 12).map (fun i =>
      ((et.rows.filter (rowInMonthE y (i + 1))).map ExpenseRow.amount).sum),
      ?_, ?_⟩
    · rw [List.map_map]
      apply List.map_congr_left
      intro i hi
      exact expense_monthly_total_eval hwfe y (i + 1)
    · rw [expense_yearly_total_eval hwfe y,
        List.filter_eq_self.mpr hall]
      congr 1
      rw [sum_filter_by_keys (List.range 12)
        (fun i r => rowInMonthE y (i + 1) r) ExpenseRow.amount et.rows]
      symm
      congr 1
      apply List.map_congr_left
      intro r hr
      obtain ⟨-, e, he, hre⟩ := hwfe r hr
      have hdate : r.expense_date = isoDate e.expense_date := by rw [hre]; rfl
      have hyr := hall r hr
      rw [rowInYearE, hdate, fromIso?_isoDate he.2] at hyr
      have hy : e.expense_date.year = y := by simpa using hyr
      have hcnt : ∀ i, rowInMonthE y (i + 1) r =
          decide (e.expense_date.month = i + 1) := by
        intro i
        rw [rowInMonthE, hdate, fromIso?_isoDate he.2]
        simp [hy]
      simp only [hcnt]
      obtain ⟨-, -, h3, h4, -, -⟩ := he.2
      rw [countP_range12 h3 h4]
      simp
  · intro hall
    refine ⟨(List.range 12).map (fun i =>
      ((it.rows.filter (rowInMonthI y (i + 1))).map IncomeRow.amount).sum),
      ?_, ?_⟩
    · rw [List.map_map]
      apply List.map_congr_left
      intro i hi
      exact income_monthly_total_eval hwfi y (i + 1)
    · rw [income_yearly_total_eval hwfi y,
        List.filter_eq_self.mpr hall]
      congr 1
      rw [sum_filter_by_keys (List.range 12)
        (fun i r => rowInMonthI y (i + 1) r) IncomeRow.amount it.rows]
      symm
      congr 1
      apply List.map_congr_left
      intro r hr
      obtain ⟨-, i, hi, hri⟩ := hwfi r hr
      have hdate : r.income_date = isoDate i.income_date := by rw [hri]; rfl
      have hyr := hall r hr
      rw [rowInYearI, hdate, fromIso?_isoDate hi.2.1] at hyr
      have hy : i.income_date.year = y := by simpa using hyr
      have hcnt : ∀ j, rowInMonthI y (j + 1) r =
          decide (i.income_date.month = j + 1) := by
        intro j
        rw [rowInMonthI, hdate, fromIso?_isoDate hi.2.1]
        simp [hy]
      simp only [hcnt]
      obtain ⟨-, -, h3, h4, -, -⟩ := hi.2.1
      rw [countP_range12 h3 h4]
      simp

/-- Witness for C6 at the concrete stores (all fixture records are dated
in 2025) and year 2025; the twelve monthly expense totals also evaluate
concretely. -/
theorem C6_witness :
    expTable1.WF ∧ incTable1.WF ∧
      (((∀ r ∈ expTable1.rows, rowInYearE 2025 r = true) →
        ∃ ms : List Int,
          ((List.range 12).map fun i =>
            ExpenseService.monthly_total expTable1 2025 (i + 1)) =
              ms.map some ∧
          ExpenseService.yearly_total expTable1 2025 = some ms.sum) ∧
      ((∀ r ∈ incTable1.rows, rowInYearI 2025 r = true) →
        ∃ ms : List Int,
          ((List.range 12).map fun i =>
            IncomeService.monthly_total incTable1 2025 (i + 1)) =
              ms.map some ∧
          IncomeService.yearly_total incTable1 2025 = some ms.sum)) ∧
    (∀ r ∈ expTable1.rows, rowInYearE 2025 r = true) ∧
    ((List.range 12).map fun i =>
      ExpenseService.monthly_total expTable1 2025 (i + 1)) =
        [some 100000, some 20000, some 0, some 0, some 0, some 0, some 0,
          some 0, some 0, some 0, some 0, some 0] :=
  ⟨expTable1_wf, incTable1_wf,
    C6_yearly_total_partitions expTable1 incTable1 2025 expTable1_wf
      incTable1_wf,
    by decide, by decide⟩

theorem totalsDescLe_total (a b : ExpenseCategory × Int) :
    totalsDescLe a b || totalsDescLe b a := by
  simp [totalsDescLe]
  omega

theorem totalsDescLe_trans (a b c : ExpenseCategory × Int)
    (h1 : totalsDescLe a b = true) (h2 : totalsDescLe b c = true) :
    totalsDescLe a c = true := by
  simp [totalsDescLe] at h1 h2 ⊢
  omega

/-- **C7.** In every `TaxSummary` the code produces, `expense_breakdown`
is sorted by total in descending order, and the entries carrying any
fixed total appear in the order of the category-totals mapping (the sort
is stable). -/
theorem C7_breakdown_sorted_descending_stable
    (inc : IncomeTable) (exp : ExpenseTable) (y : Nat)
    (ts : TaxSummary) (ct : List (ExpenseCategory × Int))
    (hts : TaxService.get_tax_summary inc exp y = some ts)
    (hct : ExpenseService.category_totals exp y = some ct) :
    ts.expense_breakdown.Pairwise (fun u v => v.total ≤ u.total) ∧
    ∀ t : Int, ts.expense_breakdown.filter (fun b => b.total == t)
      = (ct.filter (fun p => p.2 == t)).map mkBreakdown := by
  unfold TaxService.get_tax_summary at hts
  rw [hct] at hts
  cases hg : IncomeService.yearly_total inc y with
  | none => rw [hg] at hts; cases hts
  | some g =>
      rw [hg] at hts
      cases ht : ExpenseService.yearly_total exp y with
      | none => rw [ht] at hts; cases hts
      | some t =>
          rw [ht] at hts
          injection hts with hts
          subst hts
          constructor
          · exact List.Pairwise.map mkBreakdown (fun a b h => by
              simpa [mkBreakdown, totalsDescLe] using h)
              (pairwise_sortBy totalsDescLe_total totalsDescLe_trans ct)
          · intro v
            show ((sortBy totalsDescLe ct).map mkBreakdown).filter _ = _
            rw [List.filter_map]
            have hcomp : ((fun b : CategoryBreakdown => b.total == v) ∘
                mkBreakdown) = fun p : ExpenseCategory × Int => p.2 == v := by
              funext p
              rfl
            rw [hcomp, filter_sortBy]
            intro x y hx hy
            simp [totalsDescLe]
            have hx' : x.2 = v := by simpa using hx
            have hy' : y.2 = v := by simpa using hy
            omega

/-- Witness for C7: the tax summary of the concrete stores evaluates to a
breakdown of RENT 100000 before UTILITIES 20000, and the theorem applies
to it. -/
theorem C7_witness :
    TaxService.get_tax_summary incTable1 expTable1 2025 =
      some ⟨2025, 500000, 120000,
        [⟨"rent", "Rent", 100000⟩, ⟨"utilities", "Utilities", 20000⟩]⟩ ∧
    ExpenseService.category_totals expTable1 2025 =
      some [(.UTILITIES, 20000), (.RENT, 100000)] ∧
    ((⟨2025, 500000, 120000,
        [⟨"rent", "Rent", 100000⟩, ⟨"utilities", "Utilities", 20000⟩]⟩ :
          TaxSummary).expense_breakdown.Pairwise
        (fun u v => v.total ≤ u.total) ∧
      ∀ t : Int, (⟨2025, 500000, 120000,
        [⟨"rent", "Rent", 100000⟩, ⟨"utilities", "Utilities", 20000⟩]⟩ :
          TaxSummary).expense_breakdown.filter (fun b => b.total == t)
        = (([(.UTILITIES, 20000), (.RENT, 100000)] :
            List (ExpenseCategory × Int)).filter
              (fun p => p.2 == t)).map mkBreakdown) :=
  ⟨by decide, by decide,
    C7_breakdown_sorted_descending_stable incTable1 expTable1 2025 _ _
      (by decide) (by decide)⟩

theorem PDate.leB_total (a b : PDate) : PDate.leB a b || PDate.leB b a := by
  unfold PDate.leB
  split_ifs <;> simp <;> omega

theorem PDate.leB_trans (a b c : PDate) (h1 : PDate.leB a b = true)
    (h2 : PDate.leB b c = true) : PDate.leB a c = true := by
  unfold PDate.leB at h1 h2 ⊢
  split_ifs at h1 h2 ⊢ <;> simp_all <;> omega

/-- **C8.** The data rows of the income / expense CSV exports appear in
ascending order of their date fields, for every input list (in any
order) of valid records. -/
theorem C8_export_rows_date_ascending
    (li : List Income) (lexp : List Expense)
    (hvi : ∀ i ∈ li, i.income_date.validDate)
    (hve : ∀ e ∈ lexp, e.expense_date.validDate) :
    ((export_income_csv li).map IncomeCsvRow.date).Pairwise
      (fun a b => lexLe a b = true) ∧
    ((export_expenses_csv lexp).map ExpenseCsvRow.date).Pairwise
      (fun a b => lexLe a b = true) := by
  constructor
  · unfold export_income_csv
    rw [List.map_map, List.pairwise_map]
    have hp : (sortBy incomeDateAscLe li).Pairwise
        (fun a b => incomeDateAscLe a b = true) := pairwise_sortBy
      (fun a b => PDate.leB_total a.income_date b.income_date)
      (fun a b c => PDate.leB_trans a.income_date b.income_date
        c.income_date) li
    refine hp.imp_of_mem ?_
    intro a b ha hb hab
    show lexLe (isoDate a.income_date) (isoDate b.income_date) = true
    rw [lexLe_isoDate (hvi a (mem_sortBy ha)) (hvi b (mem_sortBy hb))]
    exact hab
  · unfold export_expenses_csv
    rw [List.map_map, List.pairwise_map]
    have hp : (sortBy expenseDateAscLe lexp).Pairwise
        (fun a b => expenseDateAscLe a b = true) := pairwise_sortBy
      (fun a b => PDate.leB_total a.expense_date b.expense_date)
      (fun a b c => PDate.leB_trans a.expense_date b.expense_date
        c.expense_date) lexp
    refine hp.imp_of_mem ?_
    intro a b ha hb hab
    show lexLe (isoDate a.expense_date) (isoDate b.expense_date) = true
    rw [lexLe_isoDate (hve a (mem_sortBy ha)) (hve b (mem_sortBy hb))]
    exact hab

def incB : Income := ⟨300000, ⟨2025, 6, 1⟩, "Client B", .HOURLY, "", none⟩

/-- Witness for C8 on concrete out-of-order lists; the exported rows come
out in ascending date order. -/
theorem C8_witness :
    (∀ i ∈ [incB, incA], i.income_date.validDate) ∧
    (∀ e ∈ [expUtil, expRent], e.expense_date.validDate) ∧
    (((export_income_csv [incB, incA]).map IncomeCsvRow.date).Pairwise
        (fun a b => lexLe a b = true) ∧
      ((export_expenses_csv [expUtil, expRent]).map ExpenseCsvRow.date).Pairwise
        (fun a b => lexLe a b = true)) ∧
    (export_income_csv [incB, incA]).map IncomeCsvRow.date =
      [isoDate ⟨2025, 3, 1⟩, isoDate ⟨2025, 6, 1⟩] :=
  ⟨by decide, by decide,
    C8_export_rows_date_ascending [incB, incA] [expUtil, expRent]
      (by decide) (by decide),
    by rfl⟩

/-- Python's non-strict ordering on `time`. -/
def PTime.leB (a b : PTime) : Bool :=
  if a.hour = b.hour then
    if a.minute = b.minute then
      if a.second = b.second then decide (a.microsecond ≤ b.microsecond)
      else decide (a.second < b.second)
    else decide (a.minute < b.minute)
  else decide (a.hour < b.hour)

theorem PTime.leB_floorMinute (a b : PTime) :
    PTime.leB a.floorMinute b.floorMinute = lexLe (timeStr a) (timeStr b) := by
  rw [lexLe_timeStr]
  unfold PTime.leB PTime.floorMinute
  by_cases h : a.hour = b.hour
  · rw [if_pos h, if_pos h]
    by_cases hm : a.minute = b.minute
    · simp [hm]
    · rw [if_neg hm]
      apply bool_eq_decide
      simp
      omega
  · rw [if_neg h, if_neg h]

theorem optKeyLe_total {le : κ → κ → Bool}
    (htot : ∀ a b, le a b || le b a) :
    ∀ x y : Option κ, optKeyLe le x y || optKeyLe le y x
  | none, _ => by simp [optKeyLe]
  | some _, none => by simp [optKeyLe]
  | some a, some b => by simpa [optKeyLe] using htot a b

theorem optKeyLe_trans {le : κ → κ → Bool}
    (htr : ∀ a b c, le a b = true → le b c = true → le a c = true) :
    ∀ x y z : Option κ, optKeyLe le x y = true → optKeyLe le y z = true →
      optKeyLe le x z = true
  | none, _, _, _, _ => by simp [optKeyLe]
  | some _, none, _, h, _ => by simp [optKeyLe] at h
  | some _, some _, none, _, h => by simp [optKeyLe] at h
  | some a, some b, some c, h1, h2 => by
      simpa [optKeyLe] using htr a b c (by simpa [optKeyLe] using h1)
        (by simpa [optKeyLe] using h2)

theorem eventStartAscLe_total (a b : EventRow) :
    eventStartAscLe a b || eventStartAscLe b a :=
  optKeyLe_total lexLe_total a.start_time b.start_time

theorem eventStartAscLe_trans (a b c : EventRow)
    (h1 : eventStartAscLe a b = true) (h2 : eventStartAscLe b c = true) :
    eventStartAscLe a c = true :=
  optKeyLe_trans lexLe_trans a.start_time b.start_time c.start_time h1 h2

theorem eventAscLe_total (a b : EventRow) : eventAscLe a b || eventAscLe b a := by
  unfold eventAscLe
  by_cases h : a.event_date = b.event_date
  · simp [h]
    simpa using optKeyLe_total lexLe_total a.start_time b.start_time
  · have h' : ¬ b.event_date = a.event_date := fun hh => h hh.symm
    simp [h, h']
    simpa using lexLe_total a.event_date b.event_date

theorem eventAscLe_trans (a b c : EventRow)
    (h1 : eventAscLe a b = true) (h2 : eventAscLe b c = true) :
    eventAscLe a c = true := by
  unfold eventAscLe at h1 h2 ⊢
  by_cases hab : a.event_date = b.event_date <;>
    by_cases hbc : b.event_date = c.event_date
  · rw [if_pos hab] at h1
    rw [if_pos hbc] at h2
    rw [if_pos (hab.trans hbc)]
    exact optKeyLe_trans lexLe_trans _ _ _ h1 h2
  · rw [if_pos hab] at h1
    rw [if_neg hbc] at h2
    rw [hab, if_neg hbc]
    exact h2
  · rw [if_neg hab] at h1
    rw [if_pos hbc] at h2
    rw [← hbc, if_neg hab]
    exact h1
  · rw [if_neg hab] at h1
    rw [if_neg hbc] at h2
    by_cases hac : a.event_date = c.event_date
    · exfalso
      apply hab
      exact lexLe_antisymm _ _ h1 (hac ▸ h2)
    · rw [if_neg hac]
      exact lexLe_trans _ _ _ h1 h2

theorem eventAllLe_total (a b : EventRow) : eventAllLe a b || eventAllLe b a := by
  unfold eventAllLe
  by_cases h : a.event_date = b.event_date
  · simp [h]
    simpa using optKeyLe_total lexLe_total a.start_time b.start_time
  · have h' : ¬ b.event_date = a.event_date := fun hh => h hh.symm
    simp [h, h']
    simpa using lexLe_total b.event_date a.event_date

theorem eventAllLe_trans (a b c : EventRow)
    (h1 : eventAllLe a b = true) (h2 : eventAllLe b c = true) :
    eventAllLe a c = true := by
  unfold eventAllLe at h1 h2 ⊢
  by_cases hab : a.event_date = b.event_date <;>
    by_cases hbc : b.event_date = c.event_date
  · rw [if_pos hab] at h1
    rw [if_pos hbc] at h2
    rw [if_pos (hab.trans hbc)]
    exact optKeyLe_trans lexLe_trans _ _ _ h1 h2
  · rw [if_pos hab] at h1
    rw [if_neg hbc] at h2
    rw [hab, if_neg hbc]
    exact h2
  · rw [if_neg hab] at h1
    rw [if_pos hbc] at h2
    rw [← hbc, if_neg hab]
    exact h1
  · rw [if_neg hab] at h1
    rw [if_neg hbc] at h2
    by_cases hac : a.event_date = c.event_date
    · exfalso
      apply hab
      exact lexLe_antisymm _ _ (hac ▸ h2) h1
    · rw [if_neg hac]
      exact lexLe_trans _ _ _ h2 h1

theorem PTime.ltB_of_floorMinute {a b : PTime}
    (h : PTime.ltB a.floorMinute b.floorMinute = true) :
    PTime.ltB a b = true := by
  simp only [PTime.ltB, PTime.floorMinute] at h ⊢
  by_cases hh : a.hour = b.hour
  · rw [if_pos hh] at h ⊢
    by_cases hm : a.minute = b.minute
    · rw [if_pos hm] at h
      simp at h
    · rw [if_neg hm] at h ⊢
      exact h
  · rw [if_neg hh] at h ⊢
    exact h

theorem endBeforeStart_floorMinute {st et : Option PTime}
    (h : endBeforeStart st et = false) :
    endBeforeStart (st.map PTime.floorMinute) (et.map PTime.floorMinute)
      = false := by
  cases st with
  | none => rfl
  | some s =>
      cases et with
      | none => rfl
      | some e =>
          simp only [endBeforeStart, Option.map_some'] at h ⊢
          cases he : PTime.ltB e.floorMinute s.floorMinute
          · rfl
          · exact absurd (PTime.ltB_of_floorMinute he) (by simp [h])

theorem parseTimeOpt?_formatTimeOpt {st : Option PTime}
    (hv : ∀ t ∈ st, t.validTime) :
    parseTimeOpt? (formatTimeOpt st) = some (st.map PTime.floorMinute) := by
  cases st with
  | none => rfl
  | some t =>
      simp only [formatTimeOpt, parseTimeOpt?,
        parseTime?_timeStr (hv t rfl), Option.map_some']

theorem rowToEvent?_toRow {e : Event} (he : e.wf) (i : Nat) :
    rowToEvent? (e.toRow i) = some { e with
      start_time := e.start_time.map PTime.floorMinute,
      end_time := e.end_time.map PTime.floorMinute,
      id := some i } := by
  obtain ⟨h1, h2, h3, h4, h5⟩ := he
  simp only [rowToEvent?, Event.toRow, fromIso?_isoDate h2,
    eventCategory_ofTag_tag, eventRecurrence_ofTag_tag,
    parseTimeOpt?_formatTimeOpt h3, parseTimeOpt?_formatTimeOpt h4]
  unfold mkEvent?
  rw [if_neg (by rw [h1]; exact Bool.false_ne_true),
    if_neg (by rw [endBeforeStart_floorMinute h5]; exact Bool.false_ne_true)]

theorem isoDate_inj {a b : PDate} (ha : a.validDate) (hb : b.validDate)
    (h : isoDate a = isoDate b) : a = b := by
  have h1 := fromIso?_isoDate ha
  rw [h, fromIso?_isoDate hb] at h1
  injection h1 with h1
  exact h1.symm

/-- Ascending "date, then start time (missing time first)" on returned
events, the order the specification claims for event list queries. -/
def eventLeB (a b : Event) : Bool :=
  if a.event_date = b.event_date then
    optKeyLe PTime.leB a.start_time b.start_time
  else PDate.leB a.event_date b.event_date

/-- Descending by date, then ascending by start time (missing time
first): the order `get_all` actually produces. -/
def eventGeDateLeB (a b : Event) : Bool :=
  if a.event_date = b.event_date then
    optKeyLe PTime.leB a.start_time b.start_time
  else PDate.leB b.event_date a.event_date

theorem optKeyLe_floor_bridge {st1 st2 : Option PTime}
    (h : optKeyLe lexLe (formatTimeOpt st1) (formatTimeOpt st2) = true) :
    optKeyLe PTime.leB (st1.map PTime.floorMinute)
      (st2.map PTime.floorMinute) = true := by
  cases st1 with
  | none => rfl
  | some t1 =>
      cases st2 with
      | none => simp [optKeyLe, formatTimeOpt] at h
      | some t2 =>
          simp only [formatTimeOpt, optKeyLe, Option.map_some'] at h ⊢
          rw [PTime.leB_floorMinute]
          exact h

theorem event_bridge_asc {s : EventTable} (hwf : s.WF) {r1 r2 : EventRow}
    {e1 e2 : Event} (h1 : r1 ∈ s.rows) (h2 : r2 ∈ s.rows)
    (hp1 : rowToEvent? r1 = some e1) (hp2 : rowToEvent? r2 = some e2)
    (hle : eventAscLe r1 r2 = true) : eventLeB e1 e2 = true := by
  obtain ⟨-, ev1, hev1, hr1⟩ := hwf r1 h1
  obtain ⟨-, ev2, hev2, hr2⟩ := hwf r2 h2
  rw [hr1, rowToEvent?_toRow hev1] at hp1
  rw [hr2, rowToEvent?_toRow hev2] at hp2
  injection hp1 with hp1
  injection hp2 with hp2
  subst hp1 hp2
  rw [hr1, hr2] at hle
  unfold eventAscLe at hle
  unfold eventLeB
  simp only [Event.toRow] at hle
  by_cases hd : ev1.event_date = ev2.event_date
  · rw [if_pos (congrArg isoDate hd)] at hle
    rw [if_pos hd]
    exact optKeyLe_floor_bridge hle
  · rw [if_neg (fun hh => hd (isoDate_inj hev1.2.1 hev2.2.1 hh))] at hle
    rw [if_neg hd, ← lexLe_isoDate hev1.2.1 hev2.2.1]
    exact hle

theorem event_bridge_all {s : EventTable} (hwf : s.WF) {r1 r2 : EventRow}
    {e1 e2 : Event} (h1 : r1 ∈ s.rows) (h2 : r2 ∈ s.rows)
    (hp1 : rowToEvent? r1 = some e1) (hp2 : rowToEvent? r2 = some e2)
    (hle : eventAllLe r1 r2 = true) : eventGeDateLeB e1 e2 = true := by
  obtain ⟨-, ev1, hev1, hr1⟩ := hwf r1 h1
  obtain ⟨-, ev2, hev2, hr2⟩ := hwf r2 h2
  rw [hr1, rowToEvent?_toRow hev1] at hp1
  rw [hr2, rowToEvent?_toRow hev2] at hp2
  injection hp1 with hp1
  injection hp2 with hp2
  subst hp1 hp2
  rw [hr1, hr2] at hle
  unfold eventAllLe at hle
  unfold eventGeDateLeB
  simp only [Event.toRow] at hle
  by_cases hd : ev1.event_date = ev2.event_date
  · rw [if_pos (congrArg isoDate hd)] at hle
    rw [if_pos hd]
    exact optKeyLe_floor_bridge hle
  · rw [if_neg (fun hh => hd (isoDate_inj hev1.2.1 hev2.2.1 hh))] at hle
    rw [if_neg hd, ← lexLe_isoDate hev2.2.1 hev1.2.1]
    exact hle

theorem event_bridge_date {s : EventTable} (hwf : s.WF) {r1 r2 : EventRow}
    {e1 e2 : Event} (h1 : r1 ∈ s.rows) (h2 : r2 ∈ s.rows)
    (hp1 : rowToEvent? r1 = some e1) (hp2 : rowToEvent? r2 = some e2)
    (hdates : r1.event_date = r2.event_date)
    (hle : eventStartAscLe r1 r2 = true) : eventLeB e1 e2 = true := by
  have : eventAscLe r1 r2 = true := by
    unfold eventAscLe
    rw [if_pos hdates]
    exact hle
  exact event_bridge_asc hwf h1 h2 hp1 hp2 this

def evJan : Event :=
  ⟨"January meeting", ⟨2025, 1, 1⟩, .WORK, none, none, .NONE, none, "",
    none, none, none⟩

def evFeb : Event :=
  ⟨"February meeting", ⟨2025, 2, 2⟩, .WORK, none, none, .NONE, none, "",
    none, none, none⟩

def cexEventTable : EventTable := ⟨[evJan.toRow 1, evFeb.toRow 2], 3⟩

theorem cexEventTable_wf : cexEventTable.WF := by
  intro r hr
  rcases List.mem_cons.mp hr with rfl | hr
  · exact ⟨by decide, evJan,
      ⟨by decide, by decide, by simp [evJan], by simp [evJan], by decide⟩, rfl⟩
  · rcases List.mem_singleton.mp hr with rfl
    exact ⟨by decide, evFeb,
      ⟨by decide, by decide, by simp [evFeb], by simp [evFeb], by decide⟩, rfl⟩

/-- **C3, counterexample.** `get_all` on a store holding events dated
2025-01-01 and 2025-02-02 returns the later date first: the claim that
every event list query is ordered ascending by date is false for
`get_all`, which orders `event_date DESC`. -/
theorem C3_counterexample :
    ((EventRepository.get_all cexEventTable).map fun l =>
        l.map Event.event_date) = some [⟨2025, 2, 2⟩, ⟨2025, 1, 1⟩] ∧
    PDate.leB ⟨2025, 2, 2⟩ ⟨2025, 1, 1⟩ = false :=
  ⟨by decide, by decide⟩

/-- **C3 (amended).** `get_by_date`, `get_by_month` and
`get_by_date_range` return events ordered ascending by date and then by
start time, with events lacking a start time sorting before timed events
of the same day; `get_all` instead orders descending by date, with the
same ascending missing-first start-time order within each day. -/
theorem C3_event_query_ordering (s : EventTable) (hwf : s.WF) :
    (∀ d out, EventRepository.get_by_date s d = some out →
      out.Pairwise (fun a b => eventLeB a b = true)) ∧
    (∀ y m out, EventRepository.get_by_month s y m = some out →
      out.Pairwise (fun a b => eventLeB a b = true)) ∧
    (∀ d1 d2 out, EventRepository.get_by_date_range s d1 d2 = some out →
      out.Pairwise (fun a b => eventLeB a b = true)) ∧
    (∀ out, EventRepository.get_all s = some out →
      out.Pairwise (fun a b => eventGeDateLeB a b = true)) := by
  refine ⟨?_, ?_, ?_, ?_⟩
  · intro d out hout
    unfold EventRepository.get_by_date at hout
    have hf := parseAll?_forall2 hout
    have hrow := pairwise_sortBy eventStartAscLe_total eventStartAscLe_trans
      (s.rows.filter (fun r => r.event_date == isoDate d))
    refine forall2_pairwise hf hrow ?_
    intro r1 r2 x1 x2 hm1 hm2 hR hx1 hx2
    have hd1 : r1.event_date = isoDate d := by
      simpa using (List.mem_filter.mp (mem_sortBy hm1)).2
    have hd2 : r2.event_date = isoDate d := by
      simpa using (List.mem_filter.mp (mem_sortBy hm2)).2
    exact event_bridge_date hwf
      (List.mem_of_mem_filter (mem_sortBy hm1))
      (List.mem_of_mem_filter (mem_sortBy hm2)) hx1 hx2
      (hd1.trans hd2.symm) hR
  · intro y m out hout
    unfold EventRepository.get_by_month at hout
    have hf := parseAll?_forall2 hout
    have hrow := pairwise_sortBy eventAscLe_total eventAscLe_trans
      (s.rows.filter
        (fun r => likeMatch (pad4 y ++ 45 :: pad2 m) r.event_date))
    refine forall2_pairwise hf hrow ?_
    intro r1 r2 x1 x2 hm1 hm2 hR hx1 hx2
    exact event_bridge_asc hwf
      (List.mem_of_mem_filter (mem_sortBy hm1))
      (List.mem_of_mem_filter (mem_sortBy hm2)) hx1 hx2 hR
  · intro d1 d2 out hout
    unfold EventRepository.get_by_date_range at hout
    have hf := parseAll?_forall2 hout
    have hrow := pairwise_sortBy eventAscLe_total eventAscLe_trans
      (s.rows.filter (fun r =>
        lexLe (isoDate d1) r.event_date && lexLe r.event_date (isoDate d2)))
    refine forall2_pairwise hf hrow ?_
    intro r1 r2 x1 x2 hm1 hm2 hR hx1 hx2
    exact event_bridge_asc hwf
      (List.mem_of_mem_filter (mem_sortBy hm1))
      (List.mem_of_mem_filter (mem_sortBy hm2)) hx1 hx2 hR
  · intro out hout
    unfold EventRepository.get_all at hout
    have hf := parseAll?_forall2 hout
    have hrow := pairwise_sortBy eventAllLe_total eventAllLe_trans s.rows
    refine forall2_pairwise hf hrow ?_
    intro r1 r2 x1 x2 hm1 hm2 hR hx1 hx2
    exact event_bridge_all hwf (mem_sortBy hm1) (mem_sortBy hm2) hx1 hx2 hR

/-- Witness for the amended C3: the `get_all` result on the concrete
store evaluates to February before January and satisfies the
descending-by-date order. -/
theorem C3_witness :
    cexEventTable.WF ∧
    EventRepository.get_all cexEventTable =
      some [{evFeb with id := some 2}, {evJan with id := some 1}] ∧
    List.Pairwise (fun a b => eventGeDateLeB a b = true)
      [{evFeb with id := some 2}, {evJan with id := some 1}] :=
  ⟨cexEventTable_wf, by decide,
    (C3_event_query_ordering cexEventTable cexEventTable_wf).2.2.2 _
      (by decide)⟩

theorem find?_append_none {p : α → Bool} :
    ∀ {l1 : List α} (l2 : List α), (∀ x ∈ l1, p x = false) →
      (l1 ++ l2).find? p = l2.find? p
  | [], _, _ => rfl
  | a :: l1, l2, h => by
      simp only [List.cons_append, List.find?]
      rw [h a (List.mem_cons_self a l1)]
      exact find?_append_none l2 (fun x hx => h x (List.mem_cons_of_mem a hx))

/-- **C5.** For every valid expense or income record without an identity,
`insert` returns the record with the freshly assigned identity and
otherwise unchanged fields, and `get_by_id` on that identity returns
exactly that record. -/
theorem C5_insert_get_by_id_roundtrip :
    (∀ (s : ExpenseTable) (e : Expense), s.WF → e.id = none → e.wf →
      (ExpenseRepository.insert s e).2 = { e with id := some s.nextId } ∧
      ExpenseRepository.get_by_id (ExpenseRepository.insert s e).1 s.nextId
        = some { e with id := some s.nextId }) ∧
    (∀ (s : IncomeTable) (i : Income), s.WF → i.id = none → i.wf →
      (IncomeRepository.insert s i).2 = { i with id := some s.nextId } ∧
      IncomeRepository.get_by_id (IncomeRepository.insert s i).1 s.nextId
        = some { i with id := some s.nextId }) := by
  constructor
  · intro s e hwf hid hewf
    refine ⟨rfl, ?_⟩
    unfold ExpenseRepository.get_by_id ExpenseRepository.insert
    rw [find?_append_none [e.toRow s.nextId] (fun r hr => by
      have := (hwf r hr).1
      simp only [beq_eq_false_iff_ne, ne_eq]
      omega)]
    have hfind : [e.toRow s.nextId].find?
        (fun r => r.id == s.nextId) = some (e.toRow s.nextId) := by
      simp [List.find?, Expense.toRow]
    rw [hfind]
    exact rowToExpense?_toRow hewf s.nextId
  · intro s i hwf hid hiwf
    refine ⟨rfl, ?_⟩
    unfold IncomeRepository.get_by_id IncomeRepository.insert
    rw [find?_append_none [i.toRow s.nextId] (fun r hr => by
      have := (hwf r hr).1
      simp only [beq_eq_false_iff_ne, ne_eq]
      omega)]
    have hfind : [i.toRow s.nextId].find?
        (fun r => r.id == s.nextId) = some (i.toRow s.nextId) := by
      simp [List.find?, Income.toRow]
    rw [hfind]
    exact rowToIncome?_toRow hiwf s.nextId

/-- Witness for C5 at the concrete stores with the fixture records; the
round trips also evaluate concretely. -/
theorem C5_witness :
    expTable1.WF ∧ expRent.id = none ∧ expRent.wf ∧
    incTable1.WF ∧ incA.id = none ∧ incA.wf ∧
    ((ExpenseRepository.insert expTable1 expRent).2 =
        { expRent with id := some 3 } ∧
      ExpenseRepository.get_by_id
        (ExpenseRepository.insert expTable1 expRent).1 3 =
          some { expRent with id := some 3 }) ∧
    ((IncomeRepository.insert incTable1 incA).2 =
        { incA with id := some 2 } ∧
      IncomeRepository.get_by_id
        (IncomeRepository.insert incTable1 incA).1 2 =
          some { incA with id := some 2 }) :=
  ⟨expTable1_wf, rfl, ⟨by decide, by decide⟩,
    incTable1_wf, rfl, ⟨by decide, by decide, by decide⟩,
    C5_insert_get_by_id_roundtrip.1 expTable1 expRent expTable1_wf rfl
      ⟨by decide, by decide⟩,
    C5_insert_get_by_id_roundtrip.2 incTable1 incA incTable1_wf rfl
      ⟨by decide, by decide, by decide⟩⟩

/-- **C9.** `Event` construction is a pure function of its arguments (it
takes no store and touches no repository); with both times present and
`end_time` strictly before `start_time` it fails with a validation
error, and with `end_time ≥ start_time` (and a non-blank title, the
other constructor invariant) it succeeds and returns the record
unchanged. -/
theorem C9_event_end_before_start_validation :
    (∀ (title : String) (d : PDate) (c : EventCategory) (st et : PTime)
        (rc : EventRecurrence) (col : Option String) (nts : String)
        (lii lei oid : Option Nat),
      PTime.ltB et st = true →
      ∃ msg, mkEvent? title d c (some st) (some et) rc col nts lii lei oid
        = .error msg) ∧
    (∀ (title : String) (d : PDate) (c : EventCategory) (st et : PTime)
        (rc : EventRecurrence) (col : Option String) (nts : String)
        (lii lei oid : Option Nat),
      isBlankStr title = false →
      PTime.ltB et st = false →
      mkEvent? title d c (some st) (some et) rc col nts lii lei oid
        = .ok ⟨title, d, c, some st, some et, rc, col, nts, lii, lei, oid⟩) := by
  constructor
  · intro title d c st et rc col nts lii lei oid hlt
    unfold mkEvent?
    by_cases hb : isBlankStr title
    · exact ⟨"Event title must not be empty", by rw [if_pos hb]⟩
    · refine ⟨"End time must not be before start time", ?_⟩
      rw [if_neg hb, if_pos ?_]
      show endBeforeStart (some st) (some et) = true
      simpa [endBeforeStart] using hlt
  · intro title d c st et rc col nts lii lei oid hb hlt
    unfold mkEvent?
    rw [if_neg (by simp [hb]), if_neg ?_]
    show ¬ endBeforeStart (some st) (some et) = true
    simp [endBeforeStart, hlt]

/-- Witness for C9 at the end-to-end scenario 4 input (start 14:00,
end 10:00) and a valid input (start 09:00, end 10:30); the failing case
also evaluates to the concrete error. -/
theorem C9_witness :
    PTime.ltB ⟨10, 0, 0, 0⟩ ⟨14, 0, 0, 0⟩ = true ∧
    (∃ msg, mkEvent? "Staff meeting" ⟨2025, 5, 20⟩ .WORK
      (some ⟨14, 0, 0, 0⟩) (some ⟨10, 0, 0, 0⟩) .NONE none "" none none none
        = .error msg) ∧
    isBlankStr "Staff meeting" = false ∧
    PTime.ltB ⟨10, 30, 0, 0⟩ ⟨9, 0, 0, 0⟩ = false ∧
    mkEvent? "Staff meeting" ⟨2025, 5, 20⟩ .WORK
      (some ⟨9, 0, 0, 0⟩) (some ⟨10, 30, 0, 0⟩) .NONE none "" none none none
      = .ok ⟨"Staff meeting", ⟨2025, 5, 20⟩, .WORK, some ⟨9, 0, 0, 0⟩,
          some ⟨10, 30, 0, 0⟩, .NONE, none, "", none, none, none⟩ ∧
    mkEvent? "Staff meeting" ⟨2025, 5, 20⟩ .WORK
      (some ⟨14, 0, 0, 0⟩) (some ⟨10, 0, 0, 0⟩) .NONE none "" none none none
      = .error "End time must not be before start time" :=
  ⟨by decide,
    C9_event_end_before_start_validation.1 "Staff meeting" ⟨2025, 5, 20⟩
      .WORK ⟨14, 0, 0, 0⟩ ⟨10, 0, 0, 0⟩ .NONE none "" none none none
      (by decide),
    by decide, by decide,
    C9_event_end_before_start_validation.2 "Staff meeting" ⟨2025, 5, 20⟩
      .WORK ⟨9, 0, 0, 0⟩ ⟨10, 30, 0, 0⟩ .NONE none "" none none none
      (by decide) (by decide),
    by rfl⟩

/-- **C10.** Storing an event truncates its times to minute precision:
parsing the stored `HH:MM` form of a valid time yields its minute floor,
it returns the original time exactly when seconds and microseconds are
zero, and the repository insert / `get_by_id` round trip returns the
event with both times replaced by their minute floors. -/
theorem C10_time_minute_truncation :
    (∀ t : PTime, t.validTime →
      parseTime? (timeStr t) = some t.floorMinute) ∧
    (∀ t : PTime, t.validTime →
      (parseTime? (timeStr t) = some t ↔
        t.second = 0 ∧ t.microsecond = 0)) ∧
    (∀ (s : EventTable) (e : Event), s.WF → e.wf →
      EventRepository.get_by_id (EventRepository.insert s e).1 s.nextId =
        some { e with
          start_time := e.start_time.map PTime.floorMinute,
          end_time := e.end_time.map PTime.floorMinute,
          id := some s.nextId }) := by
  refine ⟨fun t ht => parseTime?_timeStr ht,
    fun t ht => parseTime?_timeStr_eq_self ht, ?_⟩
  intro s e hwf hewf
  unfold EventRepository.get_by_id EventRepository.insert
  rw [find?_append_none [e.toRow s.nextId] (fun r hr => by
    have := (hwf r hr).1
    simp only [beq_eq_false_iff_ne, ne_eq]
    omega)]
  have hfind : [e.toRow s.nextId].find?
      (fun r => r.id == s.nextId) = some (e.toRow s.nextId) := by
    simp [List.find?, Event.toRow]
  rw [hfind]
  exact rowToEvent?_toRow hewf s.nextId

def evTimed : Event :=
  ⟨"Timed meeting", ⟨2025, 5, 20⟩, .WORK, some ⟨9, 0, 30, 0⟩,
    some ⟨10, 30, 0, 5⟩, .NONE, none, "", none, none, none⟩

def emptyEventTable : EventTable := ⟨[], 1⟩

theorem emptyEventTable_wf : emptyEventTable.WF := by
  intro r hr
  exact absurd hr (List.not_mem_nil r)

/-- Witness for C10: a time with seconds does not round trip, one without
does, and inserting an event with seconds in its times yields the
minute-floored times on re-fetch. -/
theorem C10_witness :
    PTime.validTime ⟨10, 30, 45, 0⟩ ∧
    (parseTime? (timeStr ⟨10, 30, 45, 0⟩) = some ⟨10, 30, 45, 0⟩ ↔
      (45 : Nat) = 0 ∧ (0 : Nat) = 0) ∧
    parseTime? (timeStr ⟨10, 30, 45, 0⟩) = some ⟨10, 30, 0, 0⟩ ∧
    parseTime? (timeStr ⟨10, 30, 0, 0⟩) = some ⟨10, 30, 0, 0⟩ ∧
    emptyEventTable.WF ∧ evTimed.wf ∧
    EventRepository.get_by_id
      (EventRepository.insert emptyEventTable evTimed).1 1 =
        some { evTimed with
          start_time := some ⟨9, 0, 0, 0⟩,
          end_time := some ⟨10, 30, 0, 0⟩,
          id := some 1 } := by
  refine ⟨by decide, ?_, by decide, by decide, emptyEventTable_wf,
    ⟨by decide, by decide, ?_, ?_, by decide⟩, ?_⟩
  · exact C10_time_minute_truncation.2.1 ⟨10, 30, 45, 0⟩ (by decide)
  · intro t ht
    injection ht with ht
    subst ht
    decide
  · intro t ht
    injection ht with ht
    subst ht
    decide
  · have := C10_time_minute_truncation.2.2 emptyEventTable evTimed
      emptyEventTable_wf ⟨by decide, by decide, ?_, ?_, by decide⟩
    · simpa [evTimed] using this
    · intro t ht
      injection ht with ht
      subst ht
      decide
    · intro t ht
      injection ht with ht
      subst ht
      decide
